import Mathlib

/-!
Verification of the configuration persistence and recovery engine of the
cc-switch repository (src-tauri/src/config_backup.rs and
src-tauri/src/app_config.rs), as a shallow embedding in Lean 4.

Modelling conventions:
* The filesystem is an explicit state: an association list from paths to file
  contents plus the set of existing directories.  A path is a pair of a
  directory string and a file name given as a list of characters (file names
  embed decimal timestamps, which the model renders with its own decimal
  printer, matching Rust's format semantics).
* File contents are either well-formed JSON (kept in parsed form, since the
  source always round-trips through serde_json) or unparseable garbage,
  tagged by a number so that distinct garbage contents stay distinct.
* JSON numbers are modelled as integers.  The only floating point fields in
  the configuration document (droid key balances) are modelled at
  integer-representable values; no verified claim depends on float semantics.
* Fallible OS calls (read/write/copy/rename/remove/create-dir/read-dir) are
  driven by an explicit fault environment, so that error paths of the source
  are reachable in the model.
* `SystemTime::now` is passed in as an explicit `now : Nat` (seconds since
  epoch, as in the source).
-/

/-- Structural JSON values (serde_json::Value); numbers are modelled as
integers. -/
inductive Json where
  | null : Json
  | bool (b : Bool) : Json
  | num (n : Int) : Json
  | str (s : String) : Json
  | arr (elems : List Json) : Json
  | obj (fields : List (String × Json)) : Json
deriving BEq, Repr

/-- Decimal digit character, as produced by Rust's integer formatting. -/
def digChar : Nat → Char
  | 0 => '0' | 1 => '1' | 2 => '2' | 3 => '3' | 4 => '4'
  | 5 => '5' | 6 => '6' | 7 => '7' | 8 => '8' | _ => '9'

/-- Decimal rendering of a natural number as a character list, matching
Rust's `format` output for unsigned integers. -/
def natChars (n : Nat) : List Char :=
  if _h : n < 10 then [digChar n]
  else natChars (n / 10) ++ [digChar (n % 10)]
decreasing_by
  exact Nat.div_lt_self (by omega) (by omega)

/-- A filesystem path: the containing directory (as a joined string) and the
file name (as a character list). -/
structure FPath where
  dir : String
  name : List Char
deriving DecidableEq, Repr

/-- Contents of a file: well-formed JSON text (kept parsed) or unparseable
garbage with an identity tag. -/
inductive FileData where
  | json (v : Json) : FileData
  | garbage (tag : Nat) : FileData
deriving BEq, Repr

/-- The filesystem state: files (association list, most recent write first)
and existing directories. -/
structure FsState where
  files : List (FPath × FileData)
  dirs : List String
deriving BEq, Repr

/-- Fault-injection environment for the fallible OS calls of the source. -/
structure Faults where
  readFail : FPath → Bool
  writeFail : FPath → Bool
  writeCorrupt : FPath → Bool
  copyFail : FPath → FPath → Bool
  renameFail : FPath → FPath → Bool
  removeFail : FPath → Bool
  metadataFail : FPath → Bool
  createDirFail : String → Bool
  readDirFail : String → Bool

/-- The environment in which no OS call fails. -/
def noFaults : Faults where
  readFail := fun _ => false
  writeFail := fun _ => false
  writeCorrupt := fun _ => false
  copyFail := fun _ _ => false
  renameFail := fun _ _ => false
  removeFail := fun _ => false
  metadataFail := fun _ => false
  createDirFail := fun _ => false
  readDirFail := fun _ => false

def FsState.lookupFile (s : FsState) (p : FPath) : Option FileData :=
  (s.files.find? (fun e => decide (e.1 = p))).map (·.2)

def FsState.existsFile (s : FsState) (p : FPath) : Bool :=
  (s.lookupFile p).isSome

def FsState.insertFile (s : FsState) (p : FPath) (d : FileData) : FsState :=
  { s with files := (p, d) :: s.files.filter (fun e => decide (e.1 ≠ p)) }

def FsState.removeFile (s : FsState) (p : FPath) : FsState :=
  { s with files := s.files.filter (fun e => decide (e.1 ≠ p)) }

/-- `fs::read` / `fs::read_to_string`. -/
def fsRead (F : Faults) (s : FsState) (p : FPath) : Except String FileData :=
  if F.readFail p then .error "读取文件失败" else
  match s.lookupFile p with
  | some d => .ok d
  | none => .error "读取文件失败"

/-- `fs::write`; a corrupted write succeeds but leaves garbage behind
(modelling a partial/garbled write). -/
def fsWrite (F : Faults) (s : FsState) (p : FPath) (d : FileData) :
    FsState × Except String Unit :=
  if F.writeFail p then (s, .error "写入文件失败")
  else if F.writeCorrupt p then (s.insertFile p (FileData.garbage 0), .ok ())
  else (s.insertFile p d, .ok ())

/-- `fs::copy`. -/
def fsCopy (F : Faults) (s : FsState) (src dst : FPath) :
    FsState × Except String Unit :=
  if F.copyFail src dst then (s, .error "复制文件失败") else
  match s.lookupFile src with
  | none => (s, .error "复制文件失败")
  | some d => (s.insertFile dst d, .ok ())

/-- `fs::rename` (atomic replace of `dst` by `src`). -/
def fsRename (F : Faults) (s : FsState) (src dst : FPath) :
    FsState × Except String Unit :=
  if F.renameFail src dst then (s, .error "重命名失败") else
  match s.lookupFile src with
  | none => (s, .error "重命名失败")
  | some d => ((s.removeFile src).insertFile dst d, .ok ())

/-- `fs::remove_file`. -/
def fsRemove (F : Faults) (s : FsState) (p : FPath) :
    FsState × Except String Unit :=
  if F.removeFail p then (s, .error "删除文件失败") else
  match s.lookupFile p with
  | none => (s, .error "删除文件失败")
  | some _ => (s.removeFile p, .ok ())

/-- Size of a JSON value (number of atoms), used as the model's measure of a
file's byte length. -/
def jsonSize : Json → Nat
  | .null => 1
  | .bool _ => 1
  | .num _ => 1
  | .str _ => 1
  | .arr [] => 1
  | .arr (x :: xs) => jsonSize x + jsonSize (.arr xs)
  | .obj [] => 1
  | .obj ((_, v) :: xs) => jsonSize v + jsonSize (.obj xs)

/-- Byte length of a file, as recorded by `fs::metadata(..).len()`.  The
exact value is irrelevant to every claim; the model measures the parsed
structure. -/
def FileData.byteLen : FileData → Nat
  | .json v => jsonSize v
  | .garbage t => t + 1

/-- `fs::metadata(..).len()`. -/
def fsMetadataLen (F : Faults) (s : FsState) (p : FPath) : Except String Nat :=
  if F.metadataFail p then .error "获取文件元数据失败" else
  match s.lookupFile p with
  | none => .error "获取文件元数据失败"
  | some d => .ok d.byteLen

/-- The content hash of `calculate_checksum` (DefaultHasher over the raw
bytes, printed as hex).  The hash function itself is uninterpreted by every
claim; the model uses a digest of the parsed structure. -/
def contentHash (d : FileData) : String :=
  String.mk ('h' :: natChars d.byteLen)

/-- Rust `Path::with_extension` on a file name: replace everything after the
last `.` (other than a leading dot that is the whole stem) by the new
extension; append the extension when the name has none. -/
def stemChars : List Char → List Char
  | [] => []
  | c :: rest =>
    if rest.contains '.' then
      c :: ((rest.reverse.dropWhile (fun x => decide (x ≠ '.'))).drop 1).reverse
    else c :: rest

def withExtChars (n : List Char) (ext : List Char) : List Char :=
  stemChars n ++ '.' :: ext

/-- Rust `Path::extension` on a file name. -/
def extChars : List Char → Option (List Char)
  | [] => none
  | _ :: rest =>
    if rest.contains '.' then
      some (rest.reverse.takeWhile (fun x => decide (x ≠ '.'))).reverse
    else none

/-- Lookup of a key in a JSON object's field list (serde takes the first
occurrence in the model; well-formed documents have no duplicate keys). -/
def jLookup (fields : List (String × Json)) (k : String) : Option Json :=
  (fields.find? (fun e => decide (e.1 = k))).map (·.2)

/-- `format!("config_backup_{}.json", timestamp)`. -/
def backupNameChars (t : Nat) : List Char :=
  "config_backup_".data ++ natChars t ++ ".json".data

/-- `format!("config_backup_{}.meta.json", timestamp)`. -/
def metaNameChars (t : Nat) : List Char :=
  "config_backup_".data ++ natChars t ++ ".meta.json".data

/-- `format!("config.v1.backup.{}.json", ts)`. -/
def v1BackupNameChars (t : Nat) : List Char :=
  "config.v1.backup.".data ++ natChars t ++ ".json".data

/-- The file filter of `list_backups`: extension is `json` and the name ends
with `.meta.json`. -/
def isMetaName (n : List Char) : Bool :=
  decide (extChars n = some "json".data) && List.isSuffixOf ".meta.json".data n

/-- 备份元数据 (`BackupMetadata` of config_backup.rs).  The `backup_path`
string of the source is modelled as a structured path. -/
structure BackupMetadata where
  timestamp : Nat
  file_size : Nat
  checksum : String
  backup_path : FPath
deriving DecidableEq, Repr

/-- Serde serialization of `BackupMetadata`; the path is serialized as its
(directory, file-name) decomposition, standing for the joined path string
emitted by the source. -/
def FPath.toJson (p : FPath) : Json :=
  .arr [.str p.dir, .str (String.mk p.name)]

def FPath.fromJson? : Json → Option FPath
  | .arr [.str d, .str n] => some ⟨d, n.data⟩
  | _ => none

def BackupMetadata.toJson (m : BackupMetadata) : Json :=
  .obj [("timestamp", .num m.timestamp),
        ("file_size", .num m.file_size),
        ("checksum", .str m.checksum),
        ("backup_path", m.backup_path.toJson)]

def BackupMetadata.fromJson? : Json → Option BackupMetadata
  | .obj fields =>
    match jLookup fields "timestamp", jLookup fields "file_size",
          jLookup fields "checksum", jLookup fields "backup_path" with
    | some (.num t), some (.num fs'), some (.str c), some bp =>
      if 0 ≤ t then
        if 0 ≤ fs' then
          match FPath.fromJson? bp with
          | some p => some ⟨t.toNat, fs'.toNat, c, p⟩
          | none => none
        else none
      else none
    | _, _, _, _ => none
  | _ => none

/-- Parse a file's contents as a `BackupMetadata` record
(`serde_json::from_str::<BackupMetadata>`). -/
def metaOf : FileData → Option BackupMetadata
  | .json v => BackupMetadata.fromJson? v
  | .garbage _ => none

/-- 配置备份管理器 (`ConfigBackupManager` of config_backup.rs). -/
structure ConfigBackupManager where
  config_path : FPath
  backup_dir : String
  max_backups : Nat

/-- `ConfigBackupManager::new`: the backup directory is the sibling
`backups/` directory of the config file. -/
def ConfigBackupManager.new (config_path : FPath) : ConfigBackupManager :=
  { config_path := config_path,
    backup_dir := config_path.dir ++ "/backups",
    max_backups := 10 }

/-- `ensure_backup_dir`. -/
def ConfigBackupManager.ensure_backup_dir (m : ConfigBackupManager)
    (F : Faults) (s : FsState) : FsState × Except String Unit :=
  if s.dirs.contains m.backup_dir then (s, .ok ())
  else if F.createDirFail m.backup_dir then (s, .error "创建备份目录失败")
  else ({ s with dirs := m.backup_dir :: s.dirs }, .ok ())

/-- `calculate_checksum`: read the file and hash its contents. -/
def ConfigBackupManager.calculate_checksum (_m : ConfigBackupManager)
    (F : Faults) (s : FsState) (p : FPath) : Except String String :=
  match fsRead F s p with
  | .error e => .error e
  | .ok d => .ok (contentHash d)

/-- Sorted-descending insertion (by timestamp), the model of the stable
`sort_by(|a, b| b.timestamp.cmp(&a.timestamp))`. -/
def insertDescTs (x : BackupMetadata) : List BackupMetadata → List BackupMetadata
  | [] => [x]
  | y :: ys => if y.timestamp ≥ x.timestamp then y :: insertDescTs x ys else x :: y :: ys

def sortDescTs (l : List BackupMetadata) : List BackupMetadata :=
  l.foldr insertDescTs []

/-- `list_backups`: scan the backup directory for `*.meta.json` sidecars,
parse each (skipping unreadable or malformed ones), and sort by timestamp
descending. -/
def ConfigBackupManager.list_backups (m : ConfigBackupManager)
    (F : Faults) (s : FsState) : Except String (List BackupMetadata) :=
  if ¬ s.dirs.contains m.backup_dir then .ok [] else
  if F.readDirFail m.backup_dir then .error "读取备份目录失败" else
  .ok (sortDescTs (s.files.filterMap (fun e =>
    if e.1.dir = m.backup_dir ∧ isMetaName e.1.name ∧ ¬ F.readFail e.1
    then metaOf e.2 else none)))

/-- Deletion of one backup's payload and sidecar pair during cleanup. -/
def ConfigBackupManager.removePair (_m : ConfigBackupManager) (F : Faults)
    (s : FsState) (bp : FPath) : FsState × Except String Unit :=
  let step1 :=
    if s.existsFile bp then fsRemove F s bp else (s, .ok ())
  match step1 with
  | (s1, .error e) => (s1, .error e)
  | (s1, .ok _) =>
    let meta_path : FPath := ⟨bp.dir, withExtChars bp.name "meta.json".data⟩
    if s1.existsFile meta_path then fsRemove F s1 meta_path else (s1, .ok ())

def ConfigBackupManager.cleanupLoop (m : ConfigBackupManager) (F : Faults) :
    List BackupMetadata → FsState → FsState × Except String Unit
  | [], s => (s, .ok ())
  | b :: rest, s =>
    match m.removePair F s b.backup_path with
    | (s1, .error e) => (s1, .error e)
    | (s1, .ok _) => m.cleanupLoop F rest s1

/-- `cleanup_old_backups`: keep the newest `max_backups` entries and delete
the remainder's payload and sidecar files (fail-fast on a deletion error). -/
def ConfigBackupManager.cleanup_old_backups (m : ConfigBackupManager)
    (F : Faults) (s : FsState) : FsState × Except String Unit :=
  match m.list_backups F s with
  | .error e => (s, .error e)
  | .ok backups =>
    if backups.length ≤ m.max_backups then (s, .ok ())
    else m.cleanupLoop F (backups.drop m.max_backups) s

/-- `create_backup`: requires the config file to exist; copies it into the
backup directory under a timestamped name, records size and checksum,
writes the metadata sidecar, then runs retention cleanup. -/
def ConfigBackupManager.create_backup (m : ConfigBackupManager) (F : Faults)
    (now : Nat) (s : FsState) : FsState × Except String BackupMetadata :=
  if ¬ s.existsFile m.config_path then (s, .error "配置文件不存在") else
  match m.ensure_backup_dir F s with
  | (s1, .error e) => (s1, .error e)
  | (s1, .ok _) =>
    let backup_path : FPath := ⟨m.backup_dir, backupNameChars now⟩
    match fsCopy F s1 m.config_path backup_path with
    | (s2, .error e) => (s2, .error e)
    | (s2, .ok _) =>
      match fsMetadataLen F s2 backup_path with
      | .error e => (s2, .error e)
      | .ok file_size =>
        match m.calculate_checksum F s2 backup_path with
        | .error e => (s2, .error e)
        | .ok checksum =>
          let backup_meta : BackupMetadata :=
            ⟨now, file_size, checksum, backup_path⟩
          let meta_path : FPath := ⟨m.backup_dir, metaNameChars now⟩
          match fsWrite F s2 meta_path (.json backup_meta.toJson) with
          | (s3, .error e) => (s3, .error e)
          | (s3, .ok _) =>
            match m.cleanup_old_backups F s3 with
            | (s4, .error e) => (s4, .error e)
            | (s4, .ok _) => (s4, .ok backup_meta)

/-- `restore_from_backup`: refuse if the payload is missing; make an
emergency copy of the live file if present; then plain-copy the payload over
the live path. -/
def ConfigBackupManager.restore_from_backup (m : ConfigBackupManager)
    (F : Faults) (s : FsState) (bp : FPath) : FsState × Except String Unit :=
  if ¬ s.existsFile bp then (s, .error "备份文件不存在") else
  let step1 :=
    if s.existsFile m.config_path then
      let emergency : FPath :=
        ⟨m.config_path.dir, withExtChars m.config_path.name "emergency_backup.json".data⟩
      fsCopy F s m.config_path emergency
    else (s, .ok ())
  match step1 with
  | (s1, .error e) => (s1, .error e)
  | (s1, .ok _) => fsCopy F s1 bp m.config_path

/-- `restore_from_latest`: fails when no backups exist, otherwise restores
from the newest entry. -/
def ConfigBackupManager.restore_from_latest (m : ConfigBackupManager)
    (F : Faults) (s : FsState) : FsState × Except String Unit :=
  match m.list_backups F s with
  | .error e => (s, .error e)
  | .ok backups =>
    match backups with
    | [] => (s, .error "没有可用的备份")
    | latest :: _ => m.restore_from_backup F s latest.backup_path

/-- `verify_config`: `Ok(false)` when the file is missing, an error when it
cannot be read or does not parse as JSON, `Ok(true)` otherwise. -/
def ConfigBackupManager.verify_config (m : ConfigBackupManager)
    (F : Faults) (s : FsState) : Except String Bool :=
  if ¬ s.existsFile m.config_path then .ok false else
  match fsRead F s m.config_path with
  | .error _ => .error "读取配置失败"
  | .ok (.garbage _) => .error "配置文件格式错误"
  | .ok (.json _) => .ok true

/-- The backup-of-old-state step of `safe_save` (the leading
`if self.config_path.exists() { self.create_backup()?; }`). -/
def ConfigBackupManager.backupStep (m : ConfigBackupManager) (F : Faults)
    (now : Nat) (s : FsState) : FsState × Except String Unit :=
  if s.existsFile m.config_path then
    match m.create_backup F now s with
    | (s1, .error e) => (s1, .error e)
    | (s1, .ok _) => (s1, .ok ())
  else (s, .ok ())

/-- `safe_save`: back up the pre-write state when a live file exists, write
the serialized document to a temporary sibling, re-read and re-parse it, and
only then atomically rename it onto the live path.  `ser` is the outcome of
`serde_json::to_string_pretty` on the (generic) document. -/
def ConfigBackupManager.safe_save (m : ConfigBackupManager) (F : Faults)
    (now : Nat) (s : FsState) (ser : Except String Json) :
    FsState × Except String Unit :=
  match m.backupStep F now s with
  | (s1, .error e) => (s1, .error e)
  | (s1, .ok _) =>
    match ser with
    | .error _ => (s1, .error "序列化配置失败")
    | .ok doc =>
      let temp_path : FPath :=
        ⟨m.config_path.dir, withExtChars m.config_path.name "tmp".data⟩
      match fsWrite F s1 temp_path (.json doc) with
      | (s2, .error _) => (s2, .error "写入临时文件失败")
      | (s2, .ok _) =>
        match fsRead F s2 temp_path with
        | .error _ => (s2, .error "读取临时文件失败")
        | .ok (.garbage _) => (s2, .error "验证配置格式失败")
        | .ok (.json _) =>
          match fsRename F s2 temp_path m.config_path with
          | (s3, .error _) => (s3, .error "替换配置文件失败")
          | (s3, .ok _) => (s3, .ok ())

/-- Encoding of an optional struct field under
`#[serde(skip_serializing_if = "Option::is_none")]`. -/
def optField (k : String) : Option Json → List (String × Json)
  | none => []
  | some v => [(k, v)]

/-- JSON encoding of an unsigned integer. -/
def jNum (n : Nat) : Json := .num (Int.ofNat n)

/-- Sequencing parse of a collection (serde's Vec/map deserialization). -/
def parseAll {β γ : Type} (g : β → Option γ) : List β → Option (List γ)
  | [] => some []
  | x :: xs => (g x).bind fun a => (parseAll g xs).map (a :: ·)

def jAsStr : Json → Option String
  | .str s => some s
  | _ => none

def jAsInt : Json → Option Int
  | .num n => some n
  | _ => none

def jAsNat : Json → Option Nat
  | .num n => if 0 ≤ n then some n.toNat else none
  | _ => none

def jAsBool : Json → Option Bool
  | .bool b => some b
  | _ => none

/-- A required struct field: present and well-typed. -/
def jReq (fields : List (String × Json)) (k : String)
    (f : Json → Option α) : Option α :=
  (jLookup fields k).bind f

/-- An `Option<T>` struct field: missing or `null` is `None`; a present
value must be well-typed. -/
def jOptF (fields : List (String × Json)) (k : String)
    (f : Json → Option α) : Option (Option α) :=
  match jLookup fields k with
  | none => some none
  | some .null => some none
  | some v => (f v).map some

/-- Key 余额信息 (`KeyBalance` of droid_config.rs); its `f64` fields are
modelled at integer-representable values. -/
structure KeyBalance where
  total_allowance : Int
  total_used : Int
  remaining : Int
  used_ratio : Int
  last_checked : Option Int
deriving DecidableEq, Repr

def KeyBalance.toJsonFields (b : KeyBalance) : List (String × Json) :=
  ("total_allowance", .num b.total_allowance) ::
  ("total_used", .num b.total_used) ::
  ("remaining", .num b.remaining) ::
  ("used_ratio", .num b.used_ratio) ::
  optField "last_checked" (b.last_checked.map Json.num)

def KeyBalance.toJson (b : KeyBalance) : Json := .obj b.toJsonFields

def KeyBalance.fromJson? : Json → Option KeyBalance
  | .obj fields =>
    (jReq fields "total_allowance" jAsInt).bind fun ta =>
    (jReq fields "total_used" jAsInt).bind fun tu =>
    (jReq fields "remaining" jAsInt).bind fun r =>
    (jReq fields "used_ratio" jAsInt).bind fun ur =>
    (jOptF fields "last_checked" jAsInt).bind fun lc =>
    some ⟨ta, tu, r, ur, lc⟩
  | _ => none

/-- API Key 信息 (`ApiKeyInfo` of droid_config.rs). -/
structure ApiKeyInfo where
  id : String
  key : String
  name : Option String
  is_active : Bool
  last_used : Option Int
  balance : Option KeyBalance
deriving DecidableEq, Repr

def ApiKeyInfo.toJsonFields (k : ApiKeyInfo) : List (String × Json) :=
  ("id", .str k.id) :: ("key", .str k.key) ::
  (optField "name" (k.name.map Json.str) ++
   ("is_active", .bool k.is_active) ::
   (optField "last_used" (k.last_used.map Json.num) ++
    optField "balance" (k.balance.map KeyBalance.toJson)))

def ApiKeyInfo.toJson (k : ApiKeyInfo) : Json := .obj k.toJsonFields

def ApiKeyInfo.fromJson? : Json → Option ApiKeyInfo
  | .obj fields =>
    (jReq fields "id" jAsStr).bind fun i =>
    (jReq fields "key" jAsStr).bind fun k =>
    (jOptF fields "name" jAsStr).bind fun n =>
    (jReq fields "is_active" jAsBool).bind fun a =>
    (jOptF fields "last_used" jAsInt).bind fun lu =>
    (jOptF fields "balance" KeyBalance.fromJson?).bind fun b =>
    some ⟨i, k, n, a, lu, b⟩
  | _ => none

/-- 切换策略 (`SwitchStrategy` of droid_config.rs, serde snake_case). -/
inductive SwitchStrategy where
  | manual | roundRobin | useLowest | useHighest
deriving DecidableEq, Repr

def SwitchStrategy.toJson : SwitchStrategy → Json
  | .manual => .str "manual"
  | .roundRobin => .str "round_robin"
  | .useLowest => .str "use_lowest"
  | .useHighest => .str "use_highest"

def SwitchStrategy.fromJson? : Json → Option SwitchStrategy
  | .str "manual" => some .manual
  | .str "round_robin" => some .roundRobin
  | .str "use_lowest" => some .useLowest
  | .str "use_highest" => some .useHighest
  | _ => none

/-- `DroidProvider` of droid_config.rs. -/
structure DroidProvider where
  id : String
  name : String
  api_key : String
  api_keys : Option (List ApiKeyInfo)
  current_key_index : Option Nat
  switch_strategy : Option SwitchStrategy
  base_url : Option String
  model : Option String
  model_display_name : Option String
  provider : Option String
  max_tokens : Option Int
  supports_prompt_caching : Option Bool
  created_at : Option Nat
  balance : Option KeyBalance
  is_invalid : Option Bool
deriving DecidableEq, Repr

def DroidProvider.toJsonFields (p : DroidProvider) : List (String × Json) :=
  ("id", .str p.id) :: ("name", .str p.name) :: ("api_key", .str p.api_key) ::
  (optField "api_keys" (p.api_keys.map (fun l => .arr (l.map ApiKeyInfo.toJson))) ++
   (optField "current_key_index" (p.current_key_index.map jNum) ++
    (optField "switch_strategy" (p.switch_strategy.map SwitchStrategy.toJson) ++
     (optField "base_url" (p.base_url.map Json.str) ++
      (optField "model" (p.model.map Json.str) ++
       (optField "model_display_name" (p.model_display_name.map Json.str) ++
        (optField "provider" (p.provider.map Json.str) ++
         (optField "max_tokens" (p.max_tokens.map Json.num) ++
          (optField "supports_prompt_caching" (p.supports_prompt_caching.map Json.bool) ++
           (optField "created_at" (p.created_at.map jNum) ++
            (optField "balance" (p.balance.map KeyBalance.toJson) ++
             optField "is_invalid" (p.is_invalid.map Json.bool))))))))))))

def DroidProvider.toJson (p : DroidProvider) : Json := .obj p.toJsonFields

def jAsApiKeyList : Json → Option (List ApiKeyInfo)
  | .arr l => parseAll ApiKeyInfo.fromJson? l
  | _ => none

def DroidProvider.fromFields? (fields : List (String × Json)) :
    Option DroidProvider :=
    (jReq fields "id" jAsStr).bind fun i =>
    (jReq fields "name" jAsStr).bind fun n =>
    (jReq fields "api_key" jAsStr).bind fun ak =>
    (jOptF fields "api_keys" jAsApiKeyList).bind fun aks =>
    (jOptF fields "current_key_index" jAsNat).bind fun cki =>
    (jOptF fields "switch_strategy" SwitchStrategy.fromJson?).bind fun ss =>
    (jOptF fields "base_url" jAsStr).bind fun bu =>
    (jOptF fields "model" jAsStr).bind fun mo =>
    (jOptF fields "model_display_name" jAsStr).bind fun mdn =>
    (jOptF fields "provider" jAsStr).bind fun pr =>
    (jOptF fields "max_tokens" jAsInt).bind fun mt =>
    (jOptF fields "supports_prompt_caching" jAsBool).bind fun spc =>
    (jOptF fields "created_at" jAsNat).bind fun ca =>
    (jOptF fields "balance" KeyBalance.fromJson?).bind fun b =>
    (jOptF fields "is_invalid" jAsBool).bind fun inv =>
    some ⟨i, n, ak, aks, cki, ss, bu, mo, mdn, pr, mt, spc, ca, b, inv⟩

def DroidProvider.fromJson? : Json → Option DroidProvider
  | .obj fields => DroidProvider.fromFields? fields
  | _ => none

/-- `DroidManagerConfig` of droid_config.rs. -/
structure DroidManagerConfig where
  providers : List DroidProvider
  current : String
deriving DecidableEq, Repr

def DroidManagerConfig.toJson (c : DroidManagerConfig) : Json :=
  .obj [("providers", .arr (c.providers.map DroidProvider.toJson)),
        ("current", .str c.current)]

def jAsDroidProviderList : Json → Option (List DroidProvider)
  | .arr l => parseAll DroidProvider.fromJson? l
  | _ => none

def DroidManagerConfig.fromJson? : Json → Option DroidManagerConfig
  | .obj fields =>
    (jReq fields "providers" jAsDroidProviderList).bind fun ps =>
    (jReq fields "current" jAsStr).bind fun c =>
    some ⟨ps, c⟩
  | _ => none

/-- Modelled from the spec: the `ProviderManager` type of provider.rs (the
per-client flat provider registry, which is also v1's whole on-disk shape)
is not among the given sources.  Per the spec it is an opaque registry of
provider entries; its serialized form is a JSON object carrying a
`providers` map and no version/apps wrapper (unknown fields are ignored,
as serde does by default), and a default registry is empty. -/
structure ProviderManager where
  providers : List (String × Json)
deriving BEq, Repr

def ProviderManager.default : ProviderManager := ⟨[]⟩

def ProviderManager.toJson (pm : ProviderManager) : Json :=
  .obj [("providers", .obj pm.providers)]

def ProviderManager.fromJson? : Json → Option ProviderManager
  | .obj fields =>
    match jLookup fields "providers" with
    | some (.obj provs) => some ⟨provs⟩
    | _ => none
  | _ => none

/-- MCP 配置 (`McpConfig` of app_config.rs): id-keyed loosely-typed server
definitions, with a serde default. -/
structure McpConfig where
  servers : List (String × Json)
deriving BEq, Repr

def McpConfig.default : McpConfig := ⟨[]⟩

def McpConfig.toJson (c : McpConfig) : Json :=
  .obj [("servers", .obj c.servers)]

def McpConfig.fromJson? : Json → Option McpConfig
  | .obj fields =>
    match jLookup fields "servers" with
    | none => some ⟨[]⟩
    | some (.obj l) => some ⟨l⟩
    | some _ => none
  | _ => none

/-- MCP 根 (`McpRoot` of app_config.rs): exactly the two fixed slots. -/
structure McpRoot where
  claude : McpConfig
  codex : McpConfig
deriving BEq, Repr

def McpRoot.default : McpRoot := ⟨McpConfig.default, McpConfig.default⟩

def McpRoot.toJson (r : McpRoot) : Json :=
  .obj [("claude", r.claude.toJson), ("codex", r.codex.toJson)]

def McpRoot.fromJson? : Json → Option McpRoot
  | .obj fields =>
    (match jLookup fields "claude" with
     | none => some McpConfig.default
     | some v => McpConfig.fromJson? v).bind fun cl =>
    (match jLookup fields "codex" with
     | none => some McpConfig.default
     | some v => McpConfig.fromJson? v).bind fun co =>
    some ⟨cl, co⟩
  | _ => none

/-- 多应用配置结构 (`MultiAppConfig` of app_config.rs).  The
`#[serde(flatten)]` apps map is modelled as an association list in JSON
field order (the source's HashMap is unordered; no claim depends on
ordering). -/
structure MultiAppConfig where
  version : Nat
  apps : List (String × ProviderManager)
  mcp : McpRoot
  droid_manager : Option DroidManagerConfig
deriving BEq, Repr

def default_version : Nat := 2

/-- `MultiAppConfig::default`: fresh two-app document, version 2. -/
def MultiAppConfig.default : MultiAppConfig :=
  { version := 2,
    apps := [("claude", ProviderManager.default), ("codex", ProviderManager.default)],
    mcp := McpRoot.default,
    droid_manager := none }

/-- The keys consumed by the named fields of `MultiAppConfig`; with
`#[serde(flatten)]`, every other top-level key lands in `apps`. -/
def reservedKeys : List String := ["version", "mcp", "droid_manager"]

def MultiAppConfig.toJsonFields (c : MultiAppConfig) : List (String × Json) :=
  ("version", .num c.version) ::
  (c.apps.map (fun e => (e.1, e.2.toJson)) ++
   ("mcp", c.mcp.toJson) ::
   optField "droid_manager" (c.droid_manager.map DroidManagerConfig.toJson))

def MultiAppConfig.toJson (c : MultiAppConfig) : Json := .obj c.toJsonFields

def MultiAppConfig.fromFields? (fields : List (String × Json)) :
    Option MultiAppConfig :=
    (match jLookup fields "version" with
     | none => some default_version
     | some (.num n) => if 0 ≤ n ∧ n < (2 : Int) ^ 32 then some n.toNat else none
     | some _ => none).bind fun ver =>
    (match jLookup fields "mcp" with
     | none => some McpRoot.default
     | some v => McpRoot.fromJson? v).bind fun mcp =>
    (jOptF fields "droid_manager" DroidManagerConfig.fromJson?).bind fun dm =>
    (parseAll
      (fun (e : String × Json) =>
        (ProviderManager.fromJson? e.2).map (fun pm => (e.1, pm)))
      (fields.filter (fun (e : String × Json) => decide (¬ e.1 ∈ reservedKeys)))).bind fun apps =>
    some ⟨ver, apps, mcp, dm⟩

def MultiAppConfig.fromJson? : Json → Option MultiAppConfig
  | .obj fields => MultiAppConfig.fromFields? fields
  | _ => none

/-- Modelled from the spec: `get_app_config_dir` / `get_app_config_path` of
config.rs (not among the given sources) locate the single well-known
per-user config file; the model fixes that location.  `copy_file` of
config.rs is modelled as `fsCopy`. -/
def appConfigDir : String := "config_dir"

def appConfigPath : FPath := ⟨appConfigDir, "config.json".data⟩

/-- The backup manager `load`/`save` construct for the app config path. -/
def appBM : ConfigBackupManager := ConfigBackupManager.new appConfigPath

/-- `MultiAppConfig::save`: delegate to the backup manager's safe-save. -/
def MultiAppConfig.save (c : MultiAppConfig) (F : Faults) (now : Nat)
    (s : FsState) : FsState × Except String Unit :=
  appBM.safe_save F now s (.ok c.toJson)

/-- Attempt to parse raw file contents as the flat v1 registry
(`serde_json::from_str::<ProviderManager>`). -/
def v1Parse : FileData → Option ProviderManager
  | .json v => ProviderManager.fromJson? v
  | .garbage _ => none

/-- The v2 document produced by migrating a v1 registry. -/
def migratedDoc (v1_config : ProviderManager) : MultiAppConfig :=
  { version := 2,
    apps := [("claude", v1_config), ("codex", ProviderManager.default)],
    mcp := McpRoot.default,
    droid_manager := none }

/-- The read/parse/migrate phase of `load`, entered once the file passed (or
was restored after failing) verification. -/
def MultiAppConfig.loadBody (F : Faults) (now : Nat) (s : FsState) :
    FsState × Except String MultiAppConfig :=
  match fsRead F s appConfigPath with
  | .error _ => (s, .error "读取配置文件失败")
  | .ok content =>
    match v1Parse content with
    | some v1_config =>
      let config := migratedDoc v1_config
      let backup_path : FPath := ⟨appConfigDir, v1BackupNameChars now⟩
      let s1 := (fsCopy F s appConfigPath backup_path).1
      match config.save F now s1 with
      | (s2, .error e) => (s2, .error e)
      | (s2, .ok _) => (s2, .ok config)
    | none =>
      match content with
      | .garbage _ => (s, .error "解析配置文件失败")
      | .json v =>
        match MultiAppConfig.fromJson? v with
        | some c => (s, .ok c)
        | none => (s, .error "解析配置文件失败")

/-- `MultiAppConfig::load`: default when no file exists; verify and restore
from the newest backup on verification failure (falling back to the default
document when restoration fails); then parse as v1 (migrating) or v2. -/
def MultiAppConfig.load (F : Faults) (now : Nat) (s : FsState) :
    FsState × Except String MultiAppConfig :=
  if ¬ s.existsFile appConfigPath then (s, .ok MultiAppConfig.default) else
  match appBM.verify_config F s with
  | .ok true => MultiAppConfig.loadBody F now s
  | _ =>
    match appBM.restore_from_latest F s with
    | (s1, .error _) => (s1, .ok MultiAppConfig.default)
    | (s1, .ok _) => MultiAppConfig.loadBody F now s1

/-! ### Properties of the decimal name encoding -/

def digVal (c : Char) : Nat := c.toNat - 48

def charsToNat (l : List Char) : Nat :=
  l.foldl (fun acc c => acc * 10 + digVal c) 0

/-- The contribution of one directory entry to the backup listing. -/
def contrib (m : ConfigBackupManager) (e : FPath × FileData) :
    Option BackupMetadata :=
  if e.1.dir = m.backup_dir ∧ isMetaName e.1.name then metaOf e.2 else none

def collectMetas (m : ConfigBackupManager) (files : List (FPath × FileData)) :
    List BackupMetadata :=
  files.filterMap (contrib m)

def listPure (m : ConfigBackupManager) (s : FsState) : List BackupMetadata :=
  if s.dirs.contains m.backup_dir then sortDescTs (collectMetas m s.files) else []

/-- Every parseable metadata sidecar records a backup path inside the backup
directory.  (`create_backup` only ever writes such sidecars.) -/
def backupPathsLocal (m : ConfigBackupManager) (s : FsState) : Bool :=
  s.files.all (fun e =>
    if e.1.dir = m.backup_dir ∧ isMetaName e.1.name then
      match metaOf e.2 with
      | some mm => decide (mm.backup_path.dir = m.backup_dir)
      | none => true
    else true)

/-- Every parseable metadata sidecar sits at the canonical sidecar name for
its timestamp and points at the canonical payload path for its timestamp.
(`create_backup` only ever writes such sidecars.) -/
def sidecarsCanonical (m : ConfigBackupManager) (s : FsState) : Bool :=
  s.files.all (fun e =>
    if e.1.dir = m.backup_dir ∧ isMetaName e.1.name then
      match metaOf e.2 with
      | some mm =>
        decide (e.1.name = metaNameChars mm.timestamp) &&
        decide (mm.backup_path = ⟨m.backup_dir, backupNameChars mm.timestamp⟩)
      | none => true
    else true)

/-- No two directory entries share a path. -/
def pathsNodup (s : FsState) : Bool := decide (s.files.map Prod.fst).Nodup

def metaPathOf (bp : FPath) : FPath :=
  ⟨bp.dir, withExtChars bp.name "meta.json".data⟩

def pairPaths (l : List BackupMetadata) : List FPath :=
  l.flatMap (fun b => [b.backup_path, metaPathOf b.backup_path])

def payloadPath (m : ConfigBackupManager) (t : Nat) : FPath :=
  ⟨m.backup_dir, backupNameChars t⟩

def sidecarPath (m : ConfigBackupManager) (t : Nat) : FPath :=
  ⟨m.backup_dir, metaNameChars t⟩

/-- The state after `ensure_backup_dir`. -/
def ensureState (m : ConfigBackupManager) (s : FsState) : FsState :=
  if s.dirs.contains m.backup_dir then s
  else { s with dirs := m.backup_dir :: s.dirs }

/-- The metadata record produced by a fault-free `create_backup` of content
`c` at time `now`. -/
def freshMeta (m : ConfigBackupManager) (now : Nat) (c : FileData) :
    BackupMetadata :=
  ⟨now, c.byteLen, contentHash c, payloadPath m now⟩

/-- The state after copying the payload and writing the sidecar, before
retention cleanup. -/
def midState (m : ConfigBackupManager) (now : Nat) (s : FsState)
    (c : FileData) : FsState :=
  (((ensureState m s).insertFile (payloadPath m now) c).insertFile
    (sidecarPath m now) (.json (freshMeta m now c).toJson))

/-- Proposition form of `sidecarsCanonical`: every parseable sidecar entry
sits at the canonical name for its timestamp and points at the canonical
payload path. -/
def CanonicalSidecars (m : ConfigBackupManager)
    (files : List (FPath × FileData)) : Prop :=
  ∀ e ∈ files, e.1.dir = m.backup_dir → isMetaName e.1.name = true →
    ∀ mm, metaOf e.2 = some mm →
      e.1.name = metaNameChars mm.timestamp ∧
      mm.backup_path = payloadPath m mm.timestamp

/-- The temporary sibling path (`config_path.with_extension("tmp")`). -/
def tmpPath (m : ConfigBackupManager) : FPath :=
  ⟨m.config_path.dir, withExtChars m.config_path.name "tmp".data⟩

/-- Proposition form of `backupPathsLocal`. -/
def BackupPathsLocalP (m : ConfigBackupManager)
    (files : List (FPath × FileData)) : Prop :=
  ∀ e ∈ files, e.1.dir = m.backup_dir → isMetaName e.1.name = true →
    ∀ mm, metaOf e.2 = some mm → mm.backup_path.dir = m.backup_dir

/-- A well-formed document: app keys are pairwise distinct, are none of the
reserved top-level field names, and none of them is `providers` (which would
make the serialized form structurally satisfy the v1 shape); the version tag
fits in a `u32`. -/
def validDoc (c : MultiAppConfig) : Bool :=
  decide ((c.apps.map Prod.fst).Nodup) &&
  c.apps.all (fun e =>
    decide (¬ e.1 ∈ reservedKeys) && decide (¬ e.1 = "providers")) &&
  decide (c.version < 2 ^ 32)

/-- Fault environment in which exactly the copy onto the timestamped
`.v1.backup` sidecar fails and every other OS call succeeds. -/
def v1CopyFaults (now : Nat) : Faults :=
  { noFaults with
    copyFail := fun _ dst =>
      decide (dst = ⟨appConfigDir, v1BackupNameChars now⟩) }

theorem digVal_digChar {d : Nat} (h : d < 10) : digVal (digChar d) = d := by
  interval_cases d <;> decide

theorem digChar_ne_dot {d : Nat} (h : d < 10) : digChar d ≠ '.' := by
  interval_cases d <;> decide

theorem dot_not_mem_natChars (n : Nat) : '.' ∉ natChars n := by
  induction n using Nat.strong_induction_on with
  | _ n ih =>
    rw [natChars]
    split
    · next h =>
      intro hm
      rcases List.mem_singleton.mp hm with h'
      exact digChar_ne_dot h h'.symm
    · next h =>
      intro hm
      rcases List.mem_append.mp hm with h' | h'
      · exact ih (n / 10) (Nat.div_lt_self (by omega) (by omega)) h'
      · rcases List.mem_singleton.mp h' with h''
        exact digChar_ne_dot (Nat.mod_lt _ (by omega)) h''.symm

theorem charsToNat_natChars (n : Nat) : charsToNat (natChars n) = n := by
  induction n using Nat.strong_induction_on with
  | _ n ih =>
    rw [natChars]
    split
    · next h =>
      simp [charsToNat, digVal_digChar h]
    · next h =>
      have ihd := ih (n / 10) (Nat.div_lt_self (by omega) (by omega))
      unfold charsToNat at ihd ⊢
      rw [List.foldl_append, ihd]
      simp [digVal_digChar (Nat.mod_lt n (show 0 < 10 by omega))]
      omega

theorem natChars_injective {a b : Nat} (h : natChars a = natChars b) : a = b := by
  have := charsToNat_natChars a
  rw [h, charsToNat_natChars] at this
  omega

theorem natChars_ne_nil (n : Nat) : natChars n ≠ [] := by
  rw [natChars]
  split <;> simp

/-! ### Properties of the backup file names -/

theorem backupNameChars_injective {a b : Nat}
    (h : backupNameChars a = backupNameChars b) : a = b := by
  unfold backupNameChars at h
  rw [List.append_assoc, List.append_assoc] at h
  have h1 := List.append_cancel_left h
  have h2 := List.append_cancel_right h1
  exact natChars_injective h2

theorem metaNameChars_injective {a b : Nat}
    (h : metaNameChars a = metaNameChars b) : a = b := by
  unfold metaNameChars at h
  rw [List.append_assoc, List.append_assoc] at h
  have h1 := List.append_cancel_left h
  have h2 := List.append_cancel_right h1
  exact natChars_injective h2

theorem extChars_metaNameChars (t : Nat) :
    extChars (metaNameChars t) = some "json".data := by
  have hshape : metaNameChars t =
      'c' :: ("onfig_backup_".data ++ (natChars t ++ ".meta.json".data)) := by
    simp [metaNameChars]
  rw [hshape]
  simp only [extChars]
  have hdot : ("onfig_backup_".data ++ (natChars t ++ ".meta.json".data)).contains '.' = true := by
    apply List.elem_eq_true_of_mem
    apply List.mem_append.mpr
    right
    apply List.mem_append.mpr
    right
    decide
  rw [if_pos hdot]
  have hrev : ("onfig_backup_".data ++ (natChars t ++ ".meta.json".data)).reverse =
      'n' :: 'o' :: 's' :: 'j' :: '.' :: ('a' :: 't' :: 'e' :: 'm' :: '.' ::
        ((natChars t).reverse ++ "onfig_backup_".data.reverse)) := by
    simp
  rw [hrev]
  simp [List.takeWhile]

theorem metaSuffix_metaNameChars (t : Nat) :
    List.isSuffixOf ".meta.json".data (metaNameChars t) = true := by
  rw [List.isSuffixOf_iff_suffix]
  unfold metaNameChars
  rw [List.append_assoc]
  exact (List.suffix_append _ _).trans (List.suffix_append _ _)

theorem isMetaName_metaNameChars (t : Nat) : isMetaName (metaNameChars t) = true := by
  unfold isMetaName
  rw [metaSuffix_metaNameChars, extChars_metaNameChars]
  simp

theorem metaSuffix_backupNameChars (t : Nat) :
    List.isSuffixOf ".meta.json".data (backupNameChars t) = false := by
  apply Bool.eq_false_iff.mpr
  intro h
  rw [List.isSuffixOf_iff_suffix] at h
  obtain ⟨q, hq⟩ := h
  have hsplit : ".meta.json".data = ".meta".data ++ ".json".data := by decide
  rw [hsplit] at hq
  unfold backupNameChars at hq
  rw [← List.append_assoc] at hq
  have hq2 : q ++ ".meta".data = "config_backup_".data ++ natChars t :=
    List.append_cancel_right hq
  have hdot : '.' ∈ "config_backup_".data ++ natChars t := by
    rw [← hq2]
    apply List.mem_append.mpr
    right
    decide
  rcases List.mem_append.mp hdot with h1 | h1
  · revert h1
    decide
  · exact dot_not_mem_natChars t h1

theorem isMetaName_backupNameChars (t : Nat) : isMetaName (backupNameChars t) = false := by
  unfold isMetaName
  rw [metaSuffix_backupNameChars]
  simp

theorem backupNameChars_ne_metaNameChars (t u : Nat) :
    backupNameChars t ≠ metaNameChars u := by
  intro h
  have h1 := isMetaName_backupNameChars t
  rw [h, isMetaName_metaNameChars] at h1
  exact Bool.true_eq_false.mp h1

theorem withExtChars_backupNameChars (t : Nat) :
    withExtChars (backupNameChars t) "meta.json".data = metaNameChars t := by
  have hshape : backupNameChars t =
      'c' :: ("onfig_backup_".data ++ (natChars t ++ ".json".data)) := by
    simp [backupNameChars]
  unfold withExtChars
  rw [hshape]
  simp only [stemChars]
  have hdot : ("onfig_backup_".data ++ (natChars t ++ ".json".data)).contains '.' = true := by
    apply List.elem_eq_true_of_mem
    apply List.mem_append.mpr
    right
    apply List.mem_append.mpr
    right
    decide
  rw [if_pos hdot]
  have hrev : ("onfig_backup_".data ++ (natChars t ++ ".json".data)).reverse =
      'n' :: 'o' :: 's' :: 'j' :: '.' ::
        ((natChars t).reverse ++ "onfig_backup_".data.reverse) := by
    simp
  rw [hrev]
  have hdrop : List.dropWhile (fun x => decide (x ≠ '.'))
      ('n' :: 'o' :: 's' :: 'j' :: '.' ::
        ((natChars t).reverse ++ "onfig_backup_".data.reverse)) =
      '.' :: ((natChars t).reverse ++ "onfig_backup_".data.reverse) := by
    simp [List.dropWhile]
  rw [hdrop]
  simp [metaNameChars]

/-! ### Filesystem state lemmas -/

theorem find?_filter_ne {l : List (FPath × FileData)} {p q : FPath} (h : q ≠ p) :
    (l.filter (fun e => decide (e.1 ≠ p))).find? (fun e => decide (e.1 = q)) =
      l.find? (fun e => decide (e.1 = q)) := by
  induction l with
  | nil => rfl
  | cons a l ih =>
    by_cases hap : a.1 = p
    · have haq : ¬ a.1 = q := fun hh => h (by rw [← hh, hap])
      rw [List.filter_cons_of_neg (by simpa using hap)]
      rw [List.find?_cons_of_neg _ (by simpa using haq)]
      exact ih
    · rw [List.filter_cons_of_pos (by simpa using hap)]
      by_cases haq : a.1 = q
      · rw [List.find?_cons_of_pos _ (by simpa using haq),
           List.find?_cons_of_pos _ (by simpa using haq)]
      · rw [List.find?_cons_of_neg _ (by simpa using haq),
           List.find?_cons_of_neg _ (by simpa using haq)]
        exact ih

theorem lookupFile_insertFile_self (s : FsState) (p : FPath) (d : FileData) :
    (s.insertFile p d).lookupFile p = some d := by
  simp [FsState.insertFile, FsState.lookupFile, List.find?_cons]

theorem lookupFile_insertFile_ne (s : FsState) {p q : FPath} (h : q ≠ p)
    (d : FileData) : (s.insertFile p d).lookupFile q = s.lookupFile q := by
  unfold FsState.insertFile FsState.lookupFile
  simp only [List.find?_cons]
  have h2 : (decide ((p, d).1 = q)) = false := by
    simp only [decide_eq_false_iff_not]
    exact fun hh => h hh.symm
  rw [h2]
  rw [find?_filter_ne h]

theorem lookupFile_removeFile_self (s : FsState) (p : FPath) :
    (s.removeFile p).lookupFile p = none := by
  unfold FsState.removeFile FsState.lookupFile
  have hnone : (s.files.filter (fun e => decide (e.1 ≠ p))).find?
      (fun e => decide (e.1 = p)) = none := by
    rw [List.find?_eq_none]
    intro e he
    have h2 := (List.mem_filter.mp he).2
    simp only [decide_eq_true_eq] at h2 ⊢
    exact h2
  rw [hnone]
  rfl

theorem lookupFile_removeFile_ne (s : FsState) {p q : FPath} (h : q ≠ p) :
    (s.removeFile p).lookupFile q = s.lookupFile q := by
  unfold FsState.removeFile FsState.lookupFile
  rw [find?_filter_ne h]

theorem insertFile_dirs (s : FsState) (p : FPath) (d : FileData) :
    (s.insertFile p d).dirs = s.dirs := rfl

theorem removeFile_dirs (s : FsState) (p : FPath) :
    (s.removeFile p).dirs = s.dirs := rfl

theorem mem_files_insertFile {s : FsState} {p : FPath} {d : FileData}
    {e : FPath × FileData} (h : e ∈ (s.insertFile p d).files) :
    e = (p, d) ∨ e ∈ s.files := by
  rcases List.mem_cons.mp h with h1 | h1
  · exact Or.inl h1
  · exact Or.inr (List.mem_filter.mp h1).1

theorem mem_files_removeFile {s : FsState} {p : FPath}
    {e : FPath × FileData} (h : e ∈ (s.removeFile p).files) : e ∈ s.files :=
  (List.mem_filter.mp h).1

/-! ### Frame lemmas for the primitive filesystem operations -/

theorem fsWrite_lookup_ne (F : Faults) (s : FsState) {p q : FPath}
    (h : q ≠ p) (d : FileData) :
    ((fsWrite F s p d).1).lookupFile q = s.lookupFile q := by
  unfold fsWrite
  split
  · rfl
  · split <;> exact lookupFile_insertFile_ne s h _

theorem fsWrite_dirs (F : Faults) (s : FsState) (p : FPath) (d : FileData) :
    ((fsWrite F s p d).1).dirs = s.dirs := by
  unfold fsWrite
  split
  · rfl
  · split <;> rfl

theorem fsCopy_lookup_ne (F : Faults) (s : FsState) {src dst q : FPath}
    (h : q ≠ dst) : ((fsCopy F s src dst).1).lookupFile q = s.lookupFile q := by
  unfold fsCopy
  split
  · rfl
  · split
    · rfl
    · exact lookupFile_insertFile_ne s h _

theorem fsCopy_dirs (F : Faults) (s : FsState) (src dst : FPath) :
    ((fsCopy F s src dst).1).dirs = s.dirs := by
  unfold fsCopy
  split
  · rfl
  · split <;> rfl

theorem fsRename_lookup_ne (F : Faults) (s : FsState) {src dst q : FPath}
    (h1 : q ≠ src) (h2 : q ≠ dst) :
    ((fsRename F s src dst).1).lookupFile q = s.lookupFile q := by
  unfold fsRename
  split
  · rfl
  · split
    · rfl
    · rw [lookupFile_insertFile_ne _ h2, lookupFile_removeFile_ne _ h1]

theorem fsRename_dirs (F : Faults) (s : FsState) (src dst : FPath) :
    ((fsRename F s src dst).1).dirs = s.dirs := by
  unfold fsRename
  split
  · rfl
  · split <;> rfl

theorem fsRemove_lookup_ne (F : Faults) (s : FsState) {p q : FPath}
    (h : q ≠ p) : ((fsRemove F s p).1).lookupFile q = s.lookupFile q := by
  unfold fsRemove
  split
  · rfl
  · split
    · rfl
    · exact lookupFile_removeFile_ne s h

theorem fsRemove_dirs (F : Faults) (s : FsState) (p : FPath) :
    ((fsRemove F s p).1).dirs = s.dirs := by
  unfold fsRemove
  split
  · rfl
  · split <;> rfl

/-! ### Sorting lemmas -/

theorem mem_insertDescTs {x a : BackupMetadata} {l : List BackupMetadata} :
    a ∈ insertDescTs x l ↔ a = x ∨ a ∈ l := by
  induction l with
  | nil => simp [insertDescTs]
  | cons y ys ih =>
    unfold insertDescTs
    split
    · simp only [List.mem_cons, ih]
      tauto
    · simp only [List.mem_cons]

theorem mem_sortDescTs {a : BackupMetadata} {l : List BackupMetadata} :
    a ∈ sortDescTs l ↔ a ∈ l := by
  induction l with
  | nil => simp [sortDescTs]
  | cons y ys ih =>
    unfold sortDescTs at ih ⊢
    rw [List.foldr_cons, mem_insertDescTs, ih, List.mem_cons]

theorem insertDescTs_sorted {x : BackupMetadata} {l : List BackupMetadata}
    (h : l.Pairwise (fun a b => b.timestamp ≤ a.timestamp)) :
    (insertDescTs x l).Pairwise (fun a b => b.timestamp ≤ a.timestamp) := by
  induction l with
  | nil => simp [insertDescTs]
  | cons y ys ih =>
    rcases List.pairwise_cons.mp h with ⟨hy, hys⟩
    unfold insertDescTs
    split
    · next hge =>
      apply List.pairwise_cons.mpr
      refine ⟨?_, ih hys⟩
      intro b hb
      rcases mem_insertDescTs.mp hb with hb | hb
      · rw [hb]; exact hge
      · exact hy b hb
    · next hlt =>
      apply List.pairwise_cons.mpr
      refine ⟨?_, h⟩
      intro b hb
      rcases List.mem_cons.mp hb with hb | hb
      · rw [hb]; omega
      · have := hy b hb; omega

theorem sortDescTs_sorted (l : List BackupMetadata) :
    (sortDescTs l).Pairwise (fun a b => b.timestamp ≤ a.timestamp) := by
  induction l with
  | nil => simp [sortDescTs]
  | cons y ys ih => exact insertDescTs_sorted ih

theorem insertDescTs_of_gt {x : BackupMetadata} {l : List BackupMetadata}
    (h : ∀ y ∈ l, y.timestamp < x.timestamp) : insertDescTs x l = x :: l := by
  cases l with
  | nil => rfl
  | cons y ys =>
    unfold insertDescTs
    have hy := h y (List.mem_cons_self y ys)
    rw [if_neg (by omega)]

theorem sortDescTs_cons_max {x : BackupMetadata} {l : List BackupMetadata}
    (h : ∀ y ∈ l, y.timestamp < x.timestamp) :
    sortDescTs (x :: l) = x :: sortDescTs l := by
  unfold sortDescTs
  rw [List.foldr_cons]
  exact insertDescTs_of_gt (fun y hy => h y (mem_sortDescTs.mp hy))

/-! ### Pure characterization of `list_backups` -/

theorem list_backups_noFaults (m : ConfigBackupManager) (s : FsState) :
    m.list_backups noFaults s = .ok (listPure m s) := by
  unfold ConfigBackupManager.list_backups listPure
  by_cases h : s.dirs.contains m.backup_dir = true
  · rw [if_neg (fun hc => hc h), if_pos h, if_neg (by simp [noFaults])]
    congr 2
    unfold collectMetas contrib
    congr 1
    funext e
    simp [noFaults]
  · rw [if_pos h, if_neg h]

/-! ### Well-formedness of the backup store -/

theorem backupPathsLocal_spec {m : ConfigBackupManager} {s : FsState}
    (h : backupPathsLocal m s = true) :
    ∀ e ∈ s.files, e.1.dir = m.backup_dir → isMetaName e.1.name = true →
      ∀ mm, metaOf e.2 = some mm → mm.backup_path.dir = m.backup_dir := by
  intro e he hdir hname mm hmm
  have := List.all_eq_true.mp h e he
  rw [if_pos ⟨hdir, hname⟩, hmm] at this
  exact of_decide_eq_true this

theorem sidecarsCanonical_spec {m : ConfigBackupManager} {s : FsState}
    (h : sidecarsCanonical m s = true) :
    ∀ e ∈ s.files, e.1.dir = m.backup_dir → isMetaName e.1.name = true →
      ∀ mm, metaOf e.2 = some mm →
        e.1.name = metaNameChars mm.timestamp ∧
        mm.backup_path = ⟨m.backup_dir, backupNameChars mm.timestamp⟩ := by
  intro e he hdir hname mm hmm
  have := List.all_eq_true.mp h e he
  rw [if_pos ⟨hdir, hname⟩, hmm] at this
  rcases Bool.and_eq_true_iff.mp this with ⟨h1, h2⟩
  exact ⟨of_decide_eq_true h1, of_decide_eq_true h2⟩

/-! ### Serde round-trip for metadata -/

theorem fPath_fromJson_toJson (p : FPath) : FPath.fromJson? p.toJson = some p := by
  cases p
  rfl

theorem metaOf_toJson (mm : BackupMetadata) :
    metaOf (.json mm.toJson) = some mm := by
  unfold metaOf BackupMetadata.toJson BackupMetadata.fromJson?
  simp [jLookup, List.find?, fPath_fromJson_toJson]

/-! ### Cleanup machinery -/

theorem metaPathOf_payloadPath (m : ConfigBackupManager) (t : Nat) :
    metaPathOf (payloadPath m t) = sidecarPath m t := by
  unfold metaPathOf payloadPath sidecarPath
  rw [withExtChars_backupNameChars]

theorem payloadPath_ne_sidecarPath (m : ConfigBackupManager) (t u : Nat) :
    payloadPath m t ≠ sidecarPath m u := by
  intro h
  exact backupNameChars_ne_metaNameChars t u (congrArg FPath.name h)

theorem payloadPath_injective {m : ConfigBackupManager} {t u : Nat}
    (h : payloadPath m t = payloadPath m u) : t = u :=
  backupNameChars_injective (congrArg FPath.name h)

theorem sidecarPath_injective {m : ConfigBackupManager} {t u : Nat}
    (h : sidecarPath m t = sidecarPath m u) : t = u :=
  metaNameChars_injective (congrArg FPath.name h)

theorem removePair_lookup_ne (m : ConfigBackupManager) (F : Faults)
    (s : FsState) (bp : FPath) {q : FPath} (h1 : q ≠ bp)
    (h2 : q ≠ metaPathOf bp) :
    ((m.removePair F s bp).1).lookupFile q = s.lookupFile q := by
  unfold ConfigBackupManager.removePair
  rcases hs : (if s.existsFile bp then fsRemove F s bp else (s, .ok ())) with ⟨s1, r1⟩
  have hs1 : s1.lookupFile q = s.lookupFile q := by
    by_cases hex : s.existsFile bp = true
    · rw [if_pos hex] at hs
      have := fsRemove_lookup_ne F s h1
      rw [hs] at this
      exact this
    · rw [if_neg hex] at hs
      cases hs
      rfl
  cases r1 with
  | error e => simpa using hs1
  | ok _ =>
    simp only []
    split
    · next hex2 =>
      have hfr : (fsRemove F s1 (metaPathOf bp)).1.lookupFile q = s1.lookupFile q :=
        fsRemove_lookup_ne F s1 h2
      exact hfr.trans hs1
    · exact hs1

theorem removePair_dirs (m : ConfigBackupManager) (F : Faults) (s : FsState)
    (bp : FPath) : ((m.removePair F s bp).1).dirs = s.dirs := by
  unfold ConfigBackupManager.removePair
  rcases hs : (if s.existsFile bp then fsRemove F s bp else (s, .ok ())) with ⟨s1, r1⟩
  have hs1 : s1.dirs = s.dirs := by
    by_cases hex : s.existsFile bp = true
    · rw [if_pos hex] at hs
      have := fsRemove_dirs F s bp
      rw [hs] at this
      exact this
    · rw [if_neg hex] at hs
      cases hs
      rfl
  cases r1 with
  | error e => simpa using hs1
  | ok _ =>
    simp only []
    split
    · rw [fsRemove_dirs]
      exact hs1
    · exact hs1

theorem cleanupLoop_lookup_ne (m : ConfigBackupManager) (F : Faults)
    {L : List BackupMetadata} {s : FsState} {q : FPath}
    (h : q ∉ pairPaths L) :
    ((m.cleanupLoop F L s).1).lookupFile q = s.lookupFile q := by
  induction L generalizing s with
  | nil => rfl
  | cons b rest ih =>
    have hq1 : q ≠ b.backup_path := by
      intro hh
      exact h (by rw [hh]; simp [pairPaths])
    have hq2 : q ≠ metaPathOf b.backup_path := by
      intro hh
      exact h (by rw [hh]; simp [pairPaths])
    have hrest : q ∉ pairPaths rest := by
      intro hh
      apply h
      simp only [pairPaths, List.flatMap_cons, List.mem_append]
      right
      exact hh
    unfold ConfigBackupManager.cleanupLoop
    rcases hr : m.removePair F s b.backup_path with ⟨s1, r1⟩
    have hl : s1.lookupFile q = s.lookupFile q := by
      have := removePair_lookup_ne m F s b.backup_path hq1 hq2
      rw [hr] at this
      exact this
    cases r1 with
    | error e => simpa using hl
    | ok _ =>
      simp only []
      exact (ih hrest).trans hl

theorem cleanupLoop_dirs (m : ConfigBackupManager) (F : Faults)
    (L : List BackupMetadata) (s : FsState) :
    ((m.cleanupLoop F L s).1).dirs = s.dirs := by
  induction L generalizing s with
  | nil => rfl
  | cons b rest ih =>
    unfold ConfigBackupManager.cleanupLoop
    rcases hr : m.removePair F s b.backup_path with ⟨s1, r1⟩
    have hd : s1.dirs = s.dirs := by
      have := removePair_dirs m F s b.backup_path
      rw [hr] at this
      exact this
    cases r1 with
    | error e => simpa using hd
    | ok _ =>
      simp only []
      exact (ih s1).trans hd

theorem fsRemove_noFaults_of_exists {s : FsState} {p : FPath}
    (h : s.existsFile p = true) :
    fsRemove noFaults s p = (s.removeFile p, .ok ()) := by
  unfold fsRemove
  rw [if_neg (by simp [noFaults])]
  unfold FsState.existsFile at h
  cases hl : s.lookupFile p with
  | none => rw [hl] at h; simp at h
  | some d => rfl

theorem lookupFile_fsRemove_none_mono (F : Faults) {s : FsState} {p q : FPath}
    (h : s.lookupFile q = none) : ((fsRemove F s p).1).lookupFile q = none := by
  by_cases hq : q = p
  · subst hq
    unfold fsRemove
    split
    · exact h
    · split
      · exact h
      · exact lookupFile_removeFile_self s q
  · rw [fsRemove_lookup_ne F s hq]
    exact h

theorem removePair_none_mono (m : ConfigBackupManager) (F : Faults)
    {s : FsState} {bp q : FPath} (h : s.lookupFile q = none) :
    ((m.removePair F s bp).1).lookupFile q = none := by
  unfold ConfigBackupManager.removePair
  rcases hs : (if s.existsFile bp then fsRemove F s bp else (s, .ok ())) with ⟨s1, r1⟩
  have hs1 : s1.lookupFile q = none := by
    by_cases hex : s.existsFile bp = true
    · rw [if_pos hex] at hs
      have := lookupFile_fsRemove_none_mono F (p := bp) h
      rw [hs] at this
      exact this
    · rw [if_neg hex] at hs
      cases hs
      exact h
  cases r1 with
  | error e => simpa using hs1
  | ok _ =>
    simp only []
    split
    · exact lookupFile_fsRemove_none_mono F hs1
    · exact hs1

theorem removePair_noFaults_self (m : ConfigBackupManager) (s : FsState)
    (bp : FPath) :
    ((m.removePair noFaults s bp).1).lookupFile bp = none := by
  unfold ConfigBackupManager.removePair
  rcases hs : (if s.existsFile bp then fsRemove noFaults s bp else (s, .ok ())) with ⟨s1, r1⟩
  have hs1 : s1.lookupFile bp = none := by
    by_cases hex : s.existsFile bp = true
    · rw [if_pos hex, fsRemove_noFaults_of_exists hex] at hs
      cases hs
      exact lookupFile_removeFile_self s bp
    · rw [if_neg hex] at hs
      cases hs
      unfold FsState.existsFile at hex
      cases hl : s.lookupFile bp with
      | none => rfl
      | some d => rw [hl] at hex; simp at hex
  cases r1 with
  | error e => simpa using hs1
  | ok _ =>
    simp only []
    split
    · exact lookupFile_fsRemove_none_mono noFaults hs1
    · exact hs1

theorem removePair_noFaults_meta (m : ConfigBackupManager) (s : FsState)
    (bp : FPath) :
    ((m.removePair noFaults s bp).1).lookupFile (metaPathOf bp) = none := by
  unfold ConfigBackupManager.removePair
  rcases hs : (if s.existsFile bp then fsRemove noFaults s bp else (s, .ok ())) with ⟨s1, r1⟩
  cases r1 with
  | error e =>
    exfalso
    by_cases hex : s.existsFile bp = true
    · rw [if_pos hex, fsRemove_noFaults_of_exists hex] at hs
      cases hs
    · rw [if_neg hex] at hs
      cases hs
  | ok _ =>
    simp only []
    split
    · next hex2 =>
      rw [fsRemove_noFaults_of_exists hex2]
      exact lookupFile_removeFile_self s1 _
    · next hex2 =>
      unfold FsState.existsFile at hex2
      cases hl : s1.lookupFile (metaPathOf bp) with
      | none => rfl
      | some d =>
        exfalso
        apply hex2
        have : s1.lookupFile { dir := bp.dir, name := withExtChars bp.name "meta.json".data } = some d := hl
        rw [this]
        rfl

theorem removePair_noFaults_ok (m : ConfigBackupManager) (s : FsState)
    (bp : FPath) : (m.removePair noFaults s bp).2 = .ok () := by
  unfold ConfigBackupManager.removePair
  rcases hs : (if s.existsFile bp then fsRemove noFaults s bp else (s, .ok ())) with ⟨s1, r1⟩
  cases r1 with
  | error e =>
    exfalso
    by_cases hex : s.existsFile bp = true
    · rw [if_pos hex, fsRemove_noFaults_of_exists hex] at hs
      cases hs
    · rw [if_neg hex] at hs
      cases hs
  | ok _ =>
    simp only []
    split
    · next hex2 =>
      rw [fsRemove_noFaults_of_exists hex2]
    · rfl

theorem cleanupLoop_none_mono (m : ConfigBackupManager) (F : Faults)
    {L : List BackupMetadata} {s : FsState} {q : FPath}
    (h : s.lookupFile q = none) :
    ((m.cleanupLoop F L s).1).lookupFile q = none := by
  induction L generalizing s with
  | nil => exact h
  | cons b rest ih =>
    unfold ConfigBackupManager.cleanupLoop
    rcases hr : m.removePair F s b.backup_path with ⟨s1, r1⟩
    have hs1 : s1.lookupFile q = none := by
      have := @removePair_none_mono m F s b.backup_path q h
      rw [hr] at this
      exact this
    cases r1 with
    | error e => simpa using hs1
    | ok _ =>
      simp only []
      exact ih hs1

theorem mem_pairPaths_cons {q : FPath} {b : BackupMetadata}
    {rest : List BackupMetadata} :
    q ∈ pairPaths (b :: rest) ↔
      q = b.backup_path ∨ q = metaPathOf b.backup_path ∨ q ∈ pairPaths rest := by
  simp only [pairPaths, List.flatMap_cons, List.mem_append, List.mem_cons,
    List.mem_singleton]
  tauto

theorem cleanupLoop_noFaults_lookup (m : ConfigBackupManager)
    (L : List BackupMetadata) (s : FsState) (q : FPath) :
    ((m.cleanupLoop noFaults L s).1).lookupFile q =
      if q ∈ pairPaths L then none else s.lookupFile q := by
  induction L generalizing s with
  | nil => rw [if_neg (by simp [pairPaths])]; rfl
  | cons b rest ih =>
    unfold ConfigBackupManager.cleanupLoop
    rcases hr : m.removePair noFaults s b.backup_path with ⟨s1, r1⟩
    have hok := removePair_noFaults_ok m s b.backup_path
    rw [hr] at hok
    cases r1 with
    | error e => exact absurd hok (by simp)
    | ok _ =>
      simp only []
      rw [ih s1]
      by_cases hq1 : q = b.backup_path
      · have hn : s1.lookupFile q = none := by
          have := removePair_noFaults_self m s b.backup_path
          rw [hr] at this
          rw [hq1]
          exact this
        have hmem : q ∈ pairPaths (b :: rest) :=
          mem_pairPaths_cons.mpr (Or.inl hq1)
        rw [if_pos hmem]
        split
        · rfl
        · exact hn
      · by_cases hq2 : q = metaPathOf b.backup_path
        · have hn : s1.lookupFile q = none := by
            have := removePair_noFaults_meta m s b.backup_path
            rw [hr] at this
            rw [hq2]
            exact this
          have hmem : q ∈ pairPaths (b :: rest) :=
            mem_pairPaths_cons.mpr (Or.inr (Or.inl hq2))
          rw [if_pos hmem]
          split
          · rfl
          · exact hn
        · have hfr : s1.lookupFile q = s.lookupFile q := by
            have := removePair_lookup_ne m noFaults s b.backup_path hq1 hq2
            rw [hr] at this
            exact this
          by_cases hrest : q ∈ pairPaths rest
          · rw [if_pos hrest,
                if_pos (mem_pairPaths_cons.mpr (Or.inr (Or.inr hrest)))]
          · rw [if_neg hrest, if_neg, hfr]
            intro hmem
            rcases mem_pairPaths_cons.mp hmem with h | h | h
            · exact hq1 h
            · exact hq2 h
            · exact hrest h

theorem cleanupLoop_noFaults_ok (m : ConfigBackupManager)
    (L : List BackupMetadata) (s : FsState) :
    (m.cleanupLoop noFaults L s).2 = .ok () := by
  induction L generalizing s with
  | nil => rfl
  | cons b rest ih =>
    unfold ConfigBackupManager.cleanupLoop
    rcases hr : m.removePair noFaults s b.backup_path with ⟨s1, r1⟩
    have hok := removePair_noFaults_ok m s b.backup_path
    rw [hr] at hok
    cases r1 with
    | error e => exact absurd hok (by simp)
    | ok _ => exact ih s1

theorem cleanup_noFaults_ok (m : ConfigBackupManager) (s : FsState) :
    (m.cleanup_old_backups noFaults s).2 = .ok () := by
  unfold ConfigBackupManager.cleanup_old_backups
  rw [list_backups_noFaults]
  simp only []
  split
  · rfl
  · exact cleanupLoop_noFaults_ok m _ s

theorem cleanup_noFaults_lookup (m : ConfigBackupManager) (s : FsState)
    (q : FPath) :
    ((m.cleanup_old_backups noFaults s).1).lookupFile q =
      if (listPure m s).length ≤ m.max_backups then s.lookupFile q
      else if q ∈ pairPaths ((listPure m s).drop m.max_backups) then none
           else s.lookupFile q := by
  unfold ConfigBackupManager.cleanup_old_backups
  rw [list_backups_noFaults]
  simp only []
  split
  · rfl
  · exact cleanupLoop_noFaults_lookup m _ s q

theorem cleanup_noFaults_dirs (m : ConfigBackupManager) (s : FsState) :
    ((m.cleanup_old_backups noFaults s).1).dirs = s.dirs := by
  unfold ConfigBackupManager.cleanup_old_backups
  rw [list_backups_noFaults]
  simp only []
  split
  · rfl
  · exact cleanupLoop_dirs m noFaults _ s

/-! ### `create_backup` under fault-free execution -/

theorem ensureState_files (m : ConfigBackupManager) (s : FsState) :
    (ensureState m s).files = s.files := by
  unfold ensureState
  split <;> rfl

theorem ensureState_dirs_contains (m : ConfigBackupManager) (s : FsState) :
    (ensureState m s).dirs.contains m.backup_dir = true := by
  unfold ensureState
  split
  · next h => exact h
  · simp

theorem lookup_eq_of_files {s t : FsState} (h : s.files = t.files)
    (p : FPath) : s.lookupFile p = t.lookupFile p := by
  unfold FsState.lookupFile
  rw [h]

theorem ensure_backup_dir_noFaults (m : ConfigBackupManager) (s : FsState) :
    m.ensure_backup_dir noFaults s = (ensureState m s, .ok ()) := by
  unfold ConfigBackupManager.ensure_backup_dir ensureState
  by_cases h : s.dirs.contains m.backup_dir = true
  · rw [if_pos h, if_pos h]
  · rw [if_neg h, if_neg h, if_neg (by simp [noFaults])]

theorem fsCopy_noFaults_some {t : FsState} {src : FPath} {d : FileData}
    (h : t.lookupFile src = some d) (dst : FPath) :
    fsCopy noFaults t src dst = (t.insertFile dst d, .ok ()) := by
  unfold fsCopy
  rw [if_neg (by simp [noFaults]), h]

theorem fsMetadataLen_noFaults_some {t : FsState} {p : FPath} {d : FileData}
    (h : t.lookupFile p = some d) :
    fsMetadataLen noFaults t p = .ok d.byteLen := by
  unfold fsMetadataLen
  rw [if_neg (by simp [noFaults]), h]

theorem fsRead_noFaults_some {t : FsState} {p : FPath} {d : FileData}
    (h : t.lookupFile p = some d) : fsRead noFaults t p = .ok d := by
  unfold fsRead
  rw [if_neg (by simp [noFaults]), h]

theorem calculate_checksum_noFaults (m : ConfigBackupManager) {t : FsState}
    {p : FPath} {d : FileData} (h : t.lookupFile p = some d) :
    m.calculate_checksum noFaults t p = .ok (contentHash d) := by
  unfold ConfigBackupManager.calculate_checksum
  rw [fsRead_noFaults_some h]

theorem fsWrite_noFaults (t : FsState) (p : FPath) (d : FileData) :
    fsWrite noFaults t p d = (t.insertFile p d, .ok ()) := by
  unfold fsWrite
  rw [if_neg (by simp [noFaults]), if_neg (by simp [noFaults])]

theorem create_backup_noFaults (m : ConfigBackupManager) (now : Nat)
    {s : FsState} {c : FileData} (hc : s.lookupFile m.config_path = some c) :
    m.create_backup noFaults now s =
      ((m.cleanup_old_backups noFaults (midState m now s c)).1,
        .ok (freshMeta m now c)) := by
  have hex : s.existsFile m.config_path = true := by
    unfold FsState.existsFile
    rw [hc]
    rfl
  unfold ConfigBackupManager.create_backup
  rw [if_neg (fun hh => hh hex)]
  rw [ensure_backup_dir_noFaults]
  simp only []
  have hc1 : (ensureState m s).lookupFile m.config_path = some c := by
    rw [lookup_eq_of_files (ensureState_files m s)]
    exact hc
  rw [fsCopy_noFaults_some hc1]
  simp only []
  rw [fsMetadataLen_noFaults_some (lookupFile_insertFile_self _ _ _)]
  simp only []
  rw [calculate_checksum_noFaults m (lookupFile_insertFile_self _ _ _)]
  simp only []
  rw [fsWrite_noFaults]
  simp only []
  show (match m.cleanup_old_backups noFaults (midState m now s c) with
    | (s2, Except.error e) => (s2, Except.error e)
    | (s4, Except.ok _) => (s4, Except.ok (freshMeta m now c))) = _
  rcases hcl : m.cleanup_old_backups noFaults (midState m now s c) with ⟨s4, r4⟩
  have hok := cleanup_noFaults_ok m (midState m now s c)
  rw [hcl] at hok
  cases r4 with
  | error e => exact absurd hok (by simp)
  | ok _ => simp only []

/-! ### Collection lemmas -/

theorem contrib_eq_none_of_dir {m : ConfigBackupManager}
    {e : FPath × FileData} (h : e.1.dir ≠ m.backup_dir) : contrib m e = none := by
  unfold contrib
  rw [if_neg]
  intro hc
  exact h hc.1

theorem contrib_eq_none_of_name {m : ConfigBackupManager}
    {e : FPath × FileData} (h : isMetaName e.1.name = false) :
    contrib m e = none := by
  unfold contrib
  rw [if_neg]
  intro hc
  rw [hc.2] at h
  cases h

theorem collect_filter_ne {m : ConfigBackupManager}
    {l : List (FPath × FileData)} {p : FPath}
    (hp : ∀ e ∈ l, e.1 = p → contrib m e = none) :
    collectMetas m (l.filter (fun e => decide (e.1 ≠ p))) = collectMetas m l := by
  induction l with
  | nil => rfl
  | cons a l ih =>
    have ihl := ih (fun e he hh => hp e (List.mem_cons_of_mem a he) hh)
    by_cases hap : a.1 = p
    · rw [List.filter_cons_of_neg (by simpa using hap)]
      unfold collectMetas at ihl ⊢
      rw [List.filterMap_cons, hp a (List.mem_cons_self a l) hap]
      exact ihl
    · rw [List.filter_cons_of_pos (by simpa using hap)]
      unfold collectMetas at ihl ⊢
      rw [List.filterMap_cons, List.filterMap_cons]
      cases contrib m a with
      | none => exact ihl
      | some mm => rw [ihl]

theorem collect_insertFile_none {m : ConfigBackupManager} {s : FsState}
    {p : FPath} {d : FileData}
    (hp : ∀ e ∈ s.files, e.1 = p → contrib m e = none)
    (hd : contrib m (p, d) = none) :
    collectMetas m ((s.insertFile p d).files) = collectMetas m s.files := by
  unfold FsState.insertFile
  show collectMetas m ((p, d) :: s.files.filter (fun e => decide (e.1 ≠ p))) = _
  unfold collectMetas
  rw [List.filterMap_cons, hd]
  exact collect_filter_ne hp

theorem collect_insertFile_some {m : ConfigBackupManager} {s : FsState}
    {p : FPath} {d : FileData} {mm : BackupMetadata}
    (hp : ∀ e ∈ s.files, e.1 = p → contrib m e = none)
    (hd : contrib m (p, d) = some mm) :
    collectMetas m ((s.insertFile p d).files) = mm :: collectMetas m s.files := by
  unfold FsState.insertFile
  show collectMetas m ((p, d) :: s.files.filter (fun e => decide (e.1 ≠ p))) = _
  unfold collectMetas
  rw [List.filterMap_cons, hd]
  rw [show (s.files.filter (fun e => decide (e.1 ≠ p))).filterMap (contrib m) =
    collectMetas m (s.files.filter (fun e => decide (e.1 ≠ p))) from rfl]
  rw [collect_filter_ne hp]
  rfl

theorem collect_removeFile {m : ConfigBackupManager} {s : FsState} {p : FPath}
    (hp : ∀ e ∈ s.files, e.1 = p → contrib m e = none) :
    collectMetas m ((s.removeFile p).files) = collectMetas m s.files :=
  collect_filter_ne hp

theorem mem_collect_iff {m : ConfigBackupManager}
    {files : List (FPath × FileData)} {mm : BackupMetadata} :
    mm ∈ collectMetas m files ↔ ∃ e ∈ files, contrib m e = some mm := by
  unfold collectMetas
  exact List.mem_filterMap

/-! ### Nodup path lemmas -/

theorem nodup_insertFile {s : FsState} {p : FPath} {d : FileData}
    (h : (s.files.map Prod.fst).Nodup) :
    (((s.insertFile p d).files).map Prod.fst).Nodup := by
  unfold FsState.insertFile
  simp only [List.map_cons]
  apply List.nodup_cons.mpr
  constructor
  · intro hmem
    rcases List.mem_map.mp hmem with ⟨e, he, hep⟩
    have := (List.mem_filter.mp he).2
    simp only [decide_eq_true_eq] at this
    exact this hep
  · exact h.sublist ((List.filter_sublist s.files).map _)

theorem nodup_removeFile {s : FsState} {p : FPath}
    (h : (s.files.map Prod.fst).Nodup) :
    (((s.removeFile p).files).map Prod.fst).Nodup :=
  h.sublist ((List.filter_sublist s.files).map _)

theorem find?_eq_some_of_mem_nodup {l : List (FPath × FileData)} {p : FPath}
    {d : FileData} (hn : (l.map Prod.fst).Nodup) (h : (p, d) ∈ l) :
    l.find? (fun e => decide (e.1 = p)) = some (p, d) := by
  induction l with
  | nil => cases h
  | cons a l ih =>
    rw [List.map_cons] at hn
    rcases List.nodup_cons.mp hn with ⟨ha, hl⟩
    rcases List.mem_cons.mp h with h1 | h1
    · rw [← h1]
      rw [List.find?_cons_of_pos _ (by simp)]
    · have hne : ¬ a.1 = p := by
        intro hap
        apply ha
        rw [hap]
        exact List.mem_map.mpr ⟨(p, d), h1, rfl⟩
      rw [List.find?_cons_of_neg _ (by simpa using hne)]
      exact ih hl h1

theorem lookup_eq_some_of_mem {s : FsState} {p : FPath} {d : FileData}
    (hn : (s.files.map Prod.fst).Nodup) (h : (p, d) ∈ s.files) :
    s.lookupFile p = some d := by
  unfold FsState.lookupFile
  rw [find?_eq_some_of_mem_nodup hn h]
  rfl

theorem mem_of_lookup_eq_some {s : FsState} {p : FPath} {d : FileData}
    (h : s.lookupFile p = some d) : (p, d) ∈ s.files := by
  unfold FsState.lookupFile at h
  cases hf : s.files.find? (fun e => decide (e.1 = p)) with
  | none => rw [hf] at h; cases h
  | some e =>
    rw [hf] at h
    have hmem := List.mem_of_find?_eq_some hf
    have hpred := List.find?_some hf
    obtain ⟨a, b⟩ := e
    simp only [decide_eq_true_eq] at hpred
    simp only [Option.map, Option.some_inj] at h
    have : (p, d) = (a, b) := by
      rw [hpred] at hmem ⊢
      rw [← h]
    rw [this]
    exact hmem

/-! ### The canonical-sidecar invariant -/

theorem canonical_of_bool {m : ConfigBackupManager} {s : FsState}
    (h : sidecarsCanonical m s = true) : CanonicalSidecars m s.files :=
  fun e he hd hn mm hmm => sidecarsCanonical_spec h e he hd hn mm hmm

theorem canonical_subset {m : ConfigBackupManager}
    {l l' : List (FPath × FileData)} (hsub : ∀ e ∈ l', e ∈ l)
    (h : CanonicalSidecars m l) : CanonicalSidecars m l' :=
  fun e he => h e (hsub e he)

theorem canonical_insert_payload {m : ConfigBackupManager} {s : FsState}
    (now : Nat) (c : FileData) (h : CanonicalSidecars m s.files) :
    CanonicalSidecars m ((s.insertFile (payloadPath m now) c).files) := by
  intro e he hd hn mm hmm
  rcases mem_files_insertFile he with h1 | h1
  · exfalso
    rw [h1] at hn
    have := isMetaName_backupNameChars now
    unfold payloadPath at hn
    simp only [] at hn
    rw [this] at hn
    cases hn
  · exact h e h1 hd hn mm hmm

theorem canonical_insert_sidecar {m : ConfigBackupManager} {s : FsState}
    (now : Nat) (c : FileData) (h : CanonicalSidecars m s.files) :
    CanonicalSidecars m
      ((s.insertFile (sidecarPath m now) (.json (freshMeta m now c).toJson)).files) := by
  intro e he hd hn mm hmm
  rcases mem_files_insertFile he with h1 | h1
  · rw [h1] at hmm ⊢
    simp only [] at hmm ⊢
    rw [metaOf_toJson] at hmm
    cases hmm
    exact ⟨rfl, rfl⟩
  · exact h e h1 hd hn mm hmm

theorem contrib_some_inv {m : ConfigBackupManager} {e : FPath × FileData}
    {mm : BackupMetadata} (hc : contrib m e = some mm) :
    e.1.dir = m.backup_dir ∧ isMetaName e.1.name = true ∧
      metaOf e.2 = some mm := by
  unfold contrib at hc
  split at hc
  · next hcond => exact ⟨hcond.1, hcond.2, hc⟩
  · cases hc

theorem contrib_some_canonical {m : ConfigBackupManager}
    {files : List (FPath × FileData)} {e : FPath × FileData}
    {mm : BackupMetadata} (hwf : CanonicalSidecars m files) (he : e ∈ files)
    (hc : contrib m e = some mm) :
    e.1 = sidecarPath m mm.timestamp ∧
      mm.backup_path = payloadPath m mm.timestamp := by
  rcases contrib_some_inv hc with ⟨hd, hn, hmeta⟩
  rcases hwf e he hd hn mm hmeta with ⟨hname, hbp⟩
  refine ⟨?_, hbp⟩
  have : e.1 = ⟨e.1.dir, e.1.name⟩ := rfl
  rw [this, hd, hname]
  rfl

theorem collect_ts_pairwise {m : ConfigBackupManager}
    {files : List (FPath × FileData)} (hwf : CanonicalSidecars m files)
    (hnd : (files.map Prod.fst).Nodup) :
    (collectMetas m files).Pairwise
      (fun a b => a.timestamp ≠ b.timestamp) := by
  induction files with
  | nil => exact List.Pairwise.nil
  | cons e rest ih =>
    rw [List.map_cons] at hnd
    rcases List.nodup_cons.mp hnd with ⟨hnotin, hndr⟩
    have hwfr : CanonicalSidecars m rest :=
      canonical_subset (fun x hx => List.mem_cons_of_mem e hx) hwf
    unfold collectMetas
    rw [List.filterMap_cons]
    cases hce : contrib m e with
    | none => exact ih hwfr hndr
    | some mm =>
      apply List.Pairwise.cons
      · intro mm2 hmm2
        rcases mem_collect_iff.mp hmm2 with ⟨e2, he2, hce2⟩
        intro hts
        have h1 := contrib_some_canonical hwf (List.mem_cons_self e rest) hce
        have h2 := contrib_some_canonical hwfr he2 hce2
        apply hnotin
        have : e.1 = e2.1 := by
          rw [h1.1, h2.1, ← hts]
        rw [this]
        exact List.mem_map.mpr ⟨e2, he2, rfl⟩
      · exact ih hwfr hndr

/-! ### Permutation facts for the sort -/

theorem perm_insertDescTs (x : BackupMetadata) (l : List BackupMetadata) :
    List.Perm (insertDescTs x l) (x :: l) := by
  induction l with
  | nil => exact List.Perm.refl _
  | cons y ys ih =>
    unfold insertDescTs
    split
    · exact (List.Perm.cons y ih).trans (List.Perm.swap x y ys)
    · exact List.Perm.refl _

theorem perm_sortDescTs (l : List BackupMetadata) :
    List.Perm (sortDescTs l) l := by
  induction l with
  | nil => exact List.Perm.refl _
  | cons y ys ih =>
    unfold sortDescTs
    rw [List.foldr_cons]
    exact (perm_insertDescTs y (sortDescTs ys)).trans (List.Perm.cons y ih)

theorem sortDescTs_ts_pairwise {l : List BackupMetadata}
    (h : l.Pairwise (fun a b => a.timestamp ≠ b.timestamp)) :
    (sortDescTs l).Pairwise (fun a b => a.timestamp ≠ b.timestamp) := by
  apply ((perm_sortDescTs l).pairwise_iff ?_).mpr h
  intro a b hab
  exact fun hh => hab hh.symm

/-! ### Preservation through cleanup -/

theorem fsRemove_files_subset {F : Faults} {s : FsState} {p : FPath}
    {e : FPath × FileData} (h : e ∈ ((fsRemove F s p).1).files) : e ∈ s.files := by
  unfold fsRemove at h
  split at h
  · exact h
  · split at h
    · exact h
    · exact mem_files_removeFile h

theorem removePair_files_subset {m : ConfigBackupManager} {F : Faults}
    {s : FsState} {bp : FPath} {e : FPath × FileData}
    (h : e ∈ ((m.removePair F s bp).1).files) : e ∈ s.files := by
  unfold ConfigBackupManager.removePair at h
  rcases hs : (if s.existsFile bp then fsRemove F s bp else (s, .ok ())) with ⟨s1, r1⟩
  rw [hs] at h
  have hsub1 : ∀ x : FPath × FileData, x ∈ s1.files → x ∈ s.files := by
    intro x hx
    by_cases hex : s.existsFile bp = true
    · rw [if_pos hex] at hs
      apply fsRemove_files_subset (F := F) (s := s) (p := bp)
      rw [hs]
      exact hx
    · rw [if_neg hex] at hs
      cases hs
      exact hx
  cases r1 with
  | error e' => exact hsub1 e (by simpa using h)
  | ok _ =>
    simp only [] at h
    split at h
    · exact hsub1 e (fsRemove_files_subset h)
    · exact hsub1 e h

theorem cleanupLoop_files_subset {m : ConfigBackupManager} {F : Faults}
    {L : List BackupMetadata} {s : FsState} {e : FPath × FileData}
    (h : e ∈ ((m.cleanupLoop F L s).1).files) : e ∈ s.files := by
  induction L generalizing s with
  | nil => exact h
  | cons b rest ih =>
    unfold ConfigBackupManager.cleanupLoop at h
    rcases hr : m.removePair F s b.backup_path with ⟨s1, r1⟩
    rw [hr] at h
    cases r1 with
    | error e' =>
      simp only [] at h
      apply @removePair_files_subset m F s b.backup_path e
      rw [hr]
      exact h
    | ok _ =>
      simp only [] at h
      have := ih h
      apply @removePair_files_subset m F s b.backup_path e
      rw [hr]
      exact this

theorem cleanup_files_subset {m : ConfigBackupManager} {F : Faults}
    {s : FsState} {e : FPath × FileData}
    (h : e ∈ ((m.cleanup_old_backups F s).1).files) : e ∈ s.files := by
  unfold ConfigBackupManager.cleanup_old_backups at h
  rcases hl : m.list_backups F s with r
  rw [hl] at h
  cases r with
  | error e' => exact h
  | ok backups =>
    simp only [] at h
    split at h
    · exact h
    · exact cleanupLoop_files_subset h

theorem fsRemove_nodup {F : Faults} {s : FsState} {p : FPath}
    (h : (s.files.map Prod.fst).Nodup) :
    ((((fsRemove F s p).1).files).map Prod.fst).Nodup := by
  unfold fsRemove
  split
  · exact h
  · split
    · exact h
    · exact nodup_removeFile h

theorem removePair_nodup {m : ConfigBackupManager} {F : Faults} {s : FsState}
    {bp : FPath} (h : (s.files.map Prod.fst).Nodup) :
    ((((m.removePair F s bp).1).files).map Prod.fst).Nodup := by
  unfold ConfigBackupManager.removePair
  rcases hs : (if s.existsFile bp then fsRemove F s bp else (s, .ok ())) with ⟨s1, r1⟩
  have hnd1 : ((s1.files).map Prod.fst).Nodup := by
    by_cases hex : s.existsFile bp = true
    · rw [if_pos hex] at hs
      have := fsRemove_nodup (F := F) (s := s) (p := bp) h
      rw [hs] at this
      exact this
    · rw [if_neg hex] at hs
      cases hs
      exact h
  cases r1 with
  | error e' => simpa using hnd1
  | ok _ =>
    simp only []
    split
    · exact fsRemove_nodup hnd1
    · exact hnd1

theorem cleanupLoop_nodup {m : ConfigBackupManager} {F : Faults}
    {L : List BackupMetadata} {s : FsState}
    (h : (s.files.map Prod.fst).Nodup) :
    ((((m.cleanupLoop F L s).1).files).map Prod.fst).Nodup := by
  induction L generalizing s with
  | nil => exact h
  | cons b rest ih =>
    unfold ConfigBackupManager.cleanupLoop
    rcases hr : m.removePair F s b.backup_path with ⟨s1, r1⟩
    have hnd1 : ((s1.files).map Prod.fst).Nodup := by
      have := @removePair_nodup m F s b.backup_path h
      rw [hr] at this
      exact this
    cases r1 with
    | error e' => simpa using hnd1
    | ok _ =>
      simp only []
      exact ih hnd1

theorem cleanup_nodup {m : ConfigBackupManager} {F : Faults} {s : FsState}
    (h : (s.files.map Prod.fst).Nodup) :
    ((((m.cleanup_old_backups F s).1).files).map Prod.fst).Nodup := by
  unfold ConfigBackupManager.cleanup_old_backups
  rcases hl : m.list_backups F s with r
  cases r with
  | error e' => exact h
  | ok backups =>
    simp only []
    split
    · exact h
    · exact cleanupLoop_nodup h

theorem listPure_sorted (m : ConfigBackupManager) (s : FsState) :
    (listPure m s).Pairwise (fun a b => b.timestamp ≤ a.timestamp) := by
  unfold listPure
  split
  · exact sortDescTs_sorted _
  · exact List.Pairwise.nil

theorem mem_pairPaths {q : FPath} {R : List BackupMetadata} :
    q ∈ pairPaths R ↔
      ∃ r ∈ R, q = r.backup_path ∨ q = metaPathOf r.backup_path := by
  unfold pairPaths
  rw [List.mem_flatMap]
  constructor
  · rintro ⟨r, hr, hq⟩
    rcases List.mem_cons.mp hq with h | h
    · exact ⟨r, hr, Or.inl h⟩
    · exact ⟨r, hr, Or.inr (List.mem_singleton.mp h)⟩
  · rintro ⟨r, hr, h | h⟩
    · exact ⟨r, hr, by rw [h]; simp⟩
    · exact ⟨r, hr, by rw [h]; simp⟩

/-! ### The retention postcondition of `create_backup` -/

theorem create_backup_listing (m : ConfigBackupManager) (now : Nat)
    {s : FsState} {c : FileData}
    (hmax : 0 < m.max_backups)
    (hc : s.lookupFile m.config_path = some c)
    (hwf : CanonicalSidecars m s.files)
    (hnd : (s.files.map Prod.fst).Nodup)
    (hfresh : ∀ mm ∈ collectMetas m s.files, mm.timestamp < now) :
    m.create_backup noFaults now s =
      ((m.cleanup_old_backups noFaults (midState m now s c)).1,
        .ok (freshMeta m now c)) ∧
      listPure m ((m.cleanup_old_backups noFaults (midState m now s c)).1) =
        (freshMeta m now c ::
          sortDescTs (collectMetas m s.files)).take m.max_backups ∧
      ((m.cleanup_old_backups noFaults (midState m now s c)).1).lookupFile
          (payloadPath m now) = some c ∧
      ((m.cleanup_old_backups noFaults
          (midState m now s c)).1).dirs.contains m.backup_dir = true := by
  refine ⟨create_backup_noFaults m now hc, ?_⟩
  have hens : CanonicalSidecars m (ensureState m s).files := by
    rw [ensureState_files]
    exact hwf
  have hcontrib_payload : ∀ e ∈ (ensureState m s).files,
      e.1 = payloadPath m now → contrib m e = none := by
    intro e he hep
    apply contrib_eq_none_of_name
    rw [hep]
    exact isMetaName_backupNameChars now
  have hstep1 : collectMetas m
      (((ensureState m s).insertFile (payloadPath m now) c).files) =
      collectMetas m s.files := by
    rw [collect_insertFile_none hcontrib_payload
      (contrib_eq_none_of_name (isMetaName_backupNameChars now))]
    rw [ensureState_files]
  have hcontrib_side : ∀ e ∈ ((ensureState m s).insertFile
      (payloadPath m now) c).files,
      e.1 = sidecarPath m now → contrib m e = none := by
    intro e he hep
    rcases mem_files_insertFile he with h1 | h1
    · exfalso
      rw [h1] at hep
      exact payloadPath_ne_sidecarPath m now now hep
    · rw [ensureState_files] at h1
      cases hce : contrib m e with
      | none => rfl
      | some mm =>
        exfalso
        have hcan := contrib_some_canonical hwf h1 hce
        have hts : mm.timestamp = now :=
          sidecarPath_injective (m := m) (by rw [← hcan.1, hep])
        have hmem : mm ∈ collectMetas m s.files := mem_collect_iff.mpr ⟨e, h1, hce⟩
        have := hfresh mm hmem
        omega
  have hcs : contrib m (sidecarPath m now, .json (freshMeta m now c).toJson) =
      some (freshMeta m now c) := by
    unfold contrib
    rw [if_pos ⟨rfl, isMetaName_metaNameChars now⟩]
    exact metaOf_toJson _
  have hfiles3 : collectMetas m (midState m now s c).files =
      freshMeta m now c :: collectMetas m s.files := by
    unfold midState
    rw [collect_insertFile_some hcontrib_side hcs, hstep1]
  have hnd3 : ((midState m now s c).files.map Prod.fst).Nodup := by
    unfold midState
    apply nodup_insertFile
    apply nodup_insertFile
    rw [ensureState_files]
    exact hnd
  have hwf3 : CanonicalSidecars m (midState m now s c).files := by
    unfold midState
    exact canonical_insert_sidecar now c (canonical_insert_payload now c hens)
  have hlp3 : (midState m now s c).lookupFile (payloadPath m now) = some c := by
    unfold midState
    rw [lookupFile_insertFile_ne _ (payloadPath_ne_sidecarPath m now now) _]
    exact lookupFile_insertFile_self _ _ _
  have hdirs3 : (midState m now s c).dirs.contains m.backup_dir = true := by
    unfold midState
    rw [insertFile_dirs, insertFile_dirs]
    exact ensureState_dirs_contains m s
  have hL : listPure m (midState m now s c) =
      freshMeta m now c :: sortDescTs (collectMetas m s.files) := by
    unfold listPure
    rw [if_pos hdirs3, hfiles3]
    apply sortDescTs_cons_max
    intro y hy
    exact hfresh y hy
  have hLts : (freshMeta m now c ::
      sortDescTs (collectMetas m s.files)).Pairwise
      (fun a b => a.timestamp ≠ b.timestamp) := by
    apply List.Pairwise.cons
    · intro y hy
      have := hfresh y (mem_sortDescTs.mp hy)
      show now ≠ y.timestamp
      omega
    · exact sortDescTs_ts_pairwise (collect_ts_pairwise hwf hnd)
  have hLsorted : (freshMeta m now c ::
      sortDescTs (collectMetas m s.files)).Pairwise
      (fun a b => b.timestamp ≤ a.timestamp) := by
    rw [← hL]
    exact listPure_sorted m _
  have hLcan : ∀ r ∈ freshMeta m now c ::
      sortDescTs (collectMetas m s.files),
      r.backup_path = payloadPath m r.timestamp := by
    intro r hr
    rcases List.mem_cons.mp hr with h1 | h1
    · rw [h1]
      rfl
    · rcases mem_collect_iff.mp (mem_sortDescTs.mp h1) with ⟨e, he, hce⟩
      exact (contrib_some_canonical hwf he hce).2
  have hLmem3 : ∀ x, x ∈ freshMeta m now c ::
      sortDescTs (collectMetas m s.files) ↔
      x ∈ collectMetas m (midState m now s c).files := by
    intro x
    rw [hfiles3, List.mem_cons, List.mem_cons, mem_sortDescTs]
  by_cases hlen : (listPure m (midState m now s c)).length ≤ m.max_backups
  · have hcl : m.cleanup_old_backups noFaults (midState m now s c) =
        (midState m now s c, .ok ()) := by
      unfold ConfigBackupManager.cleanup_old_backups
      rw [list_backups_noFaults]
      simp only []
      rw [if_pos hlen]
    rw [hcl]
    refine ⟨?_, hlp3, hdirs3⟩
    rw [hL, List.take_of_length_le]
    rw [← hL]
    exact hlen
  · have hcl : m.cleanup_old_backups noFaults (midState m now s c) =
        (m.cleanupLoop noFaults
          ((listPure m (midState m now s c)).drop m.max_backups)
          (midState m now s c)) := by
      unfold ConfigBackupManager.cleanup_old_backups
      rw [list_backups_noFaults]
      simp only []
      rw [if_neg hlen]
    have hlook4 : ∀ q, ((m.cleanup_old_backups noFaults
        (midState m now s c)).1).lookupFile q =
        if q ∈ pairPaths ((listPure m (midState m now s c)).drop m.max_backups)
        then none else (midState m now s c).lookupFile q := by
      intro q
      rw [hcl]
      exact cleanupLoop_noFaults_lookup m _ _ q
    have hdirs4 : ((m.cleanup_old_backups noFaults
        (midState m now s c)).1).dirs.contains m.backup_dir = true := by
      rw [hcl]
      rw [cleanupLoop_dirs]
      exact hdirs3
    have hnd4 : ((((m.cleanup_old_backups noFaults
        (midState m now s c)).1).files).map Prod.fst).Nodup :=
      cleanup_nodup hnd3
    have hwf4 : CanonicalSidecars m ((m.cleanup_old_backups noFaults
        (midState m now s c)).1).files :=
      canonical_subset (fun e he => cleanup_files_subset he) hwf3
    -- cross-timestamp distinctness between kept and dropped entries
    have hcross : ∀ a ∈ (listPure m (midState m now s c)).take m.max_backups,
        ∀ b ∈ (listPure m (midState m now s c)).drop m.max_backups,
        a.timestamp ≠ b.timestamp := by
      have hts : (listPure m (midState m now s c)).Pairwise
          (fun a b => a.timestamp ≠ b.timestamp) := by
        rw [hL]
        exact hLts
      rw [← List.take_append_drop m.max_backups
        (listPure m (midState m now s c))] at hts
      exact (List.pairwise_append.mp hts).2.2
    have hRsub : ∀ r ∈ (listPure m (midState m now s c)).drop m.max_backups,
        r ∈ freshMeta m now c :: sortDescTs (collectMetas m s.files) := by
      intro r hr
      rw [← hL]
      exact List.drop_subset _ _ hr
    have hfresh_take : freshMeta m now c ∈
        (listPure m (midState m now s c)).take m.max_backups := by
      rw [hL]
      rcases Nat.exists_eq_add_of_lt hmax with ⟨k, hk⟩
      rw [show m.max_backups = k + 1 by omega, List.take_succ_cons]
      exact List.mem_cons_self _ _
    -- membership characterization of the post-cleanup collection
    have hmemiff : ∀ mm, mm ∈ collectMetas m ((m.cleanup_old_backups noFaults
        (midState m now s c)).1).files ↔
        mm ∈ (listPure m (midState m now s c)).take m.max_backups := by
      intro mm
      constructor
      · intro hmm
        rcases mem_collect_iff.mp hmm with ⟨e, he4, hce⟩
        have hlk4 : ((m.cleanup_old_backups noFaults
            (midState m now s c)).1).lookupFile e.1 = some e.2 := by
          have he' : (e.1, e.2) ∈ ((m.cleanup_old_backups noFaults
              (midState m now s c)).1).files := by
            cases e
            exact he4
          exact lookup_eq_some_of_mem hnd4 he'
        rw [hlook4 e.1] at hlk4
        have hnotR : e.1 ∉ pairPaths
            ((listPure m (midState m now s c)).drop m.max_backups) := by
          intro hmem
          rw [if_pos hmem] at hlk4
          cases hlk4
        rw [if_neg hnotR] at hlk4
        have he3 : (e.1, e.2) ∈ (midState m now s c).files :=
          mem_of_lookup_eq_some hlk4
        have he3' : e ∈ (midState m now s c).files := by
          cases e
          exact he3
        have hmm3 : mm ∈ collectMetas m (midState m now s c).files :=
          mem_collect_iff.mpr ⟨e, he3', hce⟩
        have hmmL : mm ∈ freshMeta m now c ::
            sortDescTs (collectMetas m s.files) := (hLmem3 mm).mpr hmm3
        have hcanmm := contrib_some_canonical hwf3 he3' hce
        have hmmnotR : mm ∉ (listPure m
            (midState m now s c)).drop m.max_backups := by
          intro hmmR
          apply hnotR
          apply mem_pairPaths.mpr
          refine ⟨mm, hmmR, Or.inr ?_⟩
          rw [hcanmm.2, metaPathOf_payloadPath, hcanmm.1]
        have := List.take_append_drop m.max_backups
          (listPure m (midState m now s c))
        have hmmL' : mm ∈ (listPure m (midState m now s c)).take m.max_backups ++
            (listPure m (midState m now s c)).drop m.max_backups := by
          rw [this, hL]
          exact hmmL
        rcases List.mem_append.mp hmmL' with h | h
        · exact h
        · exact absurd h hmmnotR
      · intro hmm
        have hmmL : mm ∈ freshMeta m now c ::
            sortDescTs (collectMetas m s.files) := by
          rw [← hL]
          exact List.take_subset _ _ hmm
        have hmm3 : mm ∈ collectMetas m (midState m now s c).files :=
          (hLmem3 mm).mp hmmL
        rcases mem_collect_iff.mp hmm3 with ⟨e, he3, hce⟩
        have hcanmm := contrib_some_canonical hwf3 he3 hce
        have he3' : (e.1, e.2) ∈ (midState m now s c).files := by
          cases e
          exact he3
        have hlk3 : (midState m now s c).lookupFile e.1 = some e.2 :=
          lookup_eq_some_of_mem hnd3 he3'
        have hnotR : e.1 ∉ pairPaths
            ((listPure m (midState m now s c)).drop m.max_backups) := by
          intro hmem
          rcases mem_pairPaths.mp hmem with ⟨r, hrR, hor⟩
          have hrL := hRsub r hrR
          have hrcan := hLcan r hrL
          rcases hor with h | h
          · rw [hcanmm.1, hrcan] at h
            exact payloadPath_ne_sidecarPath m r.timestamp mm.timestamp h.symm
          · rw [hcanmm.1, hrcan, metaPathOf_payloadPath] at h
            have hts : mm.timestamp = r.timestamp := sidecarPath_injective h
            exact hcross mm hmm r hrR hts
        have hlk4 : ((m.cleanup_old_backups noFaults
            (midState m now s c)).1).lookupFile e.1 = some e.2 := by
          rw [hlook4 e.1, if_neg hnotR]
          exact hlk3
        have he4 : e ∈ ((m.cleanup_old_backups noFaults
            (midState m now s c)).1).files := by
          have := mem_of_lookup_eq_some hlk4
          cases e
          exact this
        exact mem_collect_iff.mpr ⟨e, he4, hce⟩
    -- the final listing equality
    have hstrict4 : (sortDescTs (collectMetas m ((m.cleanup_old_backups
        noFaults (midState m now s c)).1).files)).Pairwise
        (fun a b => b.timestamp < a.timestamp) := by
      have h1 := sortDescTs_sorted (collectMetas m ((m.cleanup_old_backups
        noFaults (midState m now s c)).1).files)
      have h2 := sortDescTs_ts_pairwise (collect_ts_pairwise hwf4 hnd4)
      exact (h1.and h2).imp (fun h => by omega)
    have hstrictT : ((listPure m
        (midState m now s c)).take m.max_backups).Pairwise
        (fun a b => b.timestamp < a.timestamp) := by
      have hts : (listPure m (midState m now s c)).Pairwise
          (fun a b => a.timestamp ≠ b.timestamp) := by
        rw [hL]; exact hLts
      have hsorted := listPure_sorted m (midState m now s c)
      exact ((hsorted.and hts).imp (fun h => by omega)).sublist
        (List.take_sublist _ _)
    have heq4 : listPure m ((m.cleanup_old_backups noFaults
        (midState m now s c)).1) =
        (listPure m (midState m now s c)).take m.max_backups := by
      unfold listPure
      rw [if_pos hdirs4]
      haveI : IsAntisymm BackupMetadata (fun a b => b.timestamp < a.timestamp) :=
        ⟨fun a b h1 h2 => absurd h1 (by omega)⟩
      apply List.eq_of_perm_of_sorted ?_ hstrict4 ?_
      · apply (List.perm_ext_iff_of_nodup ?_ ?_).mpr
        · intro x
          rw [mem_sortDescTs]
          exact hmemiff x
        · exact hstrict4.imp (fun h => by intro hh; rw [hh] at h; omega)
        · exact hstrictT.imp (fun h => by intro hh; rw [hh] at h; omega)
      · show ((listPure m (midState m now s c)).take m.max_backups).Pairwise _
        simp only [listPure]
        rw [if_pos hdirs3]
        have := hstrictT
        simp only [listPure] at this
        rw [if_pos hdirs3] at this
        exact this
    refine ⟨?_, ?_, hdirs4⟩
    · rw [heq4, hL]
    · rw [hlook4 (payloadPath m now)]
      rw [if_neg ?_, hlp3]
      intro hmem
      rcases mem_pairPaths.mp hmem with ⟨r, hrR, hor⟩
      have hrL := hRsub r hrR
      have hrcan := hLcan r hrL
      rcases hor with h | h
      · rw [hrcan] at h
        have hts : now = r.timestamp := payloadPath_injective h
        exact hcross (freshMeta m now c) hfresh_take r hrR hts
      · rw [hrcan, metaPathOf_payloadPath] at h
        exact payloadPath_ne_sidecarPath m now r.timestamp h

/-! ### `safe_save` under fault-free execution -/

theorem fsRename_noFaults_some {t : FsState} {src : FPath} {d : FileData}
    (h : t.lookupFile src = some d) (dst : FPath) :
    fsRename noFaults t src dst = ((t.removeFile src).insertFile dst d, .ok ()) := by
  unfold fsRename
  rw [if_neg (by simp [noFaults]), h]

theorem listPure_insertFile_outside {m : ConfigBackupManager} {s : FsState}
    {p : FPath} (hq : p.dir ≠ m.backup_dir) (d : FileData) :
    listPure m (s.insertFile p d) = listPure m s := by
  unfold listPure
  rw [insertFile_dirs]
  rw [collect_insertFile_none
    (fun e he hep => contrib_eq_none_of_dir (by rw [hep]; exact hq))
    (contrib_eq_none_of_dir hq)]

theorem listPure_removeFile_outside {m : ConfigBackupManager} {s : FsState}
    {p : FPath} (hq : p.dir ≠ m.backup_dir) :
    listPure m (s.removeFile p) = listPure m s := by
  unfold listPure
  rw [removeFile_dirs]
  rw [collect_removeFile
    (fun e he hep => contrib_eq_none_of_dir (by rw [hep]; exact hq))]

theorem backupStep_not_exists (m : ConfigBackupManager) (F : Faults)
    (now : Nat) {s : FsState} (h : s.existsFile m.config_path = false) :
    m.backupStep F now s = (s, .ok ()) := by
  unfold ConfigBackupManager.backupStep
  rw [if_neg (by rw [h]; exact Bool.false_ne_true)]

theorem backupStep_noFaults_old (m : ConfigBackupManager) (now : Nat)
    {s : FsState} {c : FileData}
    (hc : s.lookupFile m.config_path = some c) :
    m.backupStep noFaults now s =
      ((m.cleanup_old_backups noFaults (midState m now s c)).1, .ok ()) := by
  unfold ConfigBackupManager.backupStep
  have hex : s.existsFile m.config_path = true := by
    unfold FsState.existsFile
    rw [hc]
    rfl
  rw [if_pos hex, create_backup_noFaults m now hc]

theorem safe_save_noFaults_new (m : ConfigBackupManager) (now : Nat)
    {s : FsState} (h : s.existsFile m.config_path = false) (j : Json) :
    m.safe_save noFaults now s (.ok j) =
      (((s.insertFile (tmpPath m) (.json j)).removeFile
          (tmpPath m)).insertFile m.config_path (.json j), .ok ()) := by
  unfold ConfigBackupManager.safe_save
  rw [backupStep_not_exists m noFaults now h]
  simp only []
  rw [fsWrite_noFaults]
  simp only []
  rw [fsRead_noFaults_some (lookupFile_insertFile_self _ _ _)]
  simp only []
  rw [fsRename_noFaults_some (lookupFile_insertFile_self _ _ _)]
  rfl

theorem safe_save_noFaults_old (m : ConfigBackupManager) (now : Nat)
    {s : FsState} {c : FileData} (hc : s.lookupFile m.config_path = some c)
    (j : Json) :
    m.safe_save noFaults now s (.ok j) =
      (((((m.cleanup_old_backups noFaults (midState m now s c)).1).insertFile
          (tmpPath m) (.json j)).removeFile
          (tmpPath m)).insertFile m.config_path (.json j), .ok ()) := by
  unfold ConfigBackupManager.safe_save
  rw [backupStep_noFaults_old m now hc]
  simp only []
  rw [fsWrite_noFaults]
  simp only []
  rw [fsRead_noFaults_some (lookupFile_insertFile_self _ _ _)]
  simp only []
  rw [fsRename_noFaults_some (lookupFile_insertFile_self _ _ _)]
  rfl

/-! ### Frame lemmas under arbitrary faults (for the abort guarantees) -/

theorem backupPathsLocalP_of_bool {m : ConfigBackupManager} {s : FsState}
    (h : backupPathsLocal m s = true) : BackupPathsLocalP m s.files :=
  fun e he hd hn mm hmm => backupPathsLocal_spec h e he hd hn mm hmm

theorem ensure_backup_dir_files (m : ConfigBackupManager) (F : Faults)
    (s : FsState) : ((m.ensure_backup_dir F s).1).files = s.files := by
  unfold ConfigBackupManager.ensure_backup_dir
  split
  · rfl
  · split <;> rfl

theorem fsCopy_ok_inv {F : Faults} {t t2 : FsState} {a b : FPath} {u : Unit}
    (h : fsCopy F t a b = (t2, .ok u)) :
    ∃ d, t.lookupFile a = some d ∧ t2 = t.insertFile b d := by
  unfold fsCopy at h
  split at h
  · cases h
  · cases hl : t.lookupFile a with
    | none => rw [hl] at h; cases h
    | some d =>
      rw [hl] at h
      cases h
      exact ⟨d, rfl, rfl⟩

theorem fsWrite_ok_inv {F : Faults} {t t2 : FsState} {p : FPath} {d : FileData}
    {u : Unit} (h : fsWrite F t p d = (t2, .ok u)) :
    t2 = t.insertFile p d ∨ t2 = t.insertFile p (FileData.garbage 0) := by
  unfold fsWrite at h
  split at h
  · cases h
  · split at h
    · cases h
      exact Or.inr rfl
    · cases h
      exact Or.inl rfl

theorem fsRename_error_state {F : Faults} {t t2 : FsState} {a b : FPath}
    {e : String} (h : fsRename F t a b = (t2, .error e)) : t2 = t := by
  unfold fsRename at h
  split at h
  · cases h; rfl
  · split at h
    · cases h; rfl
    · cases h

theorem list_backups_mem_dir {m : ConfigBackupManager} {F : Faults}
    {s : FsState} {backups : List BackupMetadata}
    (h : m.list_backups F s = .ok backups)
    (hwfP : BackupPathsLocalP m s.files) :
    ∀ b ∈ backups, b.backup_path.dir = m.backup_dir := by
  intro b hb
  unfold ConfigBackupManager.list_backups at h
  split at h
  · cases h
    cases hb
  · split at h
    · cases h
    · cases h
      rcases List.mem_filterMap.mp (mem_sortDescTs.mp hb) with ⟨e, he, hce⟩
      split at hce
      · next hcond => exact hwfP e he hcond.1 hcond.2.1 b hce
      · cases hce

theorem cleanupLoop_frame_dir (m : ConfigBackupManager) (F : Faults)
    {L : List BackupMetadata} {s : FsState} {q : FPath}
    (hq : q.dir ≠ m.backup_dir)
    (hL : ∀ b ∈ L, b.backup_path.dir = m.backup_dir) :
    ((m.cleanupLoop F L s).1).lookupFile q = s.lookupFile q := by
  apply cleanupLoop_lookup_ne
  intro hmem
  rcases mem_pairPaths.mp hmem with ⟨r, hr, hor⟩
  have hrd := hL r hr
  rcases hor with h | h
  · rw [h] at hq
    exact hq hrd
  · rw [h] at hq
    exact hq hrd

theorem cleanup_frame_dir (m : ConfigBackupManager) (F : Faults)
    {s : FsState} {q : FPath} (hq : q.dir ≠ m.backup_dir)
    (hwfP : BackupPathsLocalP m s.files) :
    ((m.cleanup_old_backups F s).1).lookupFile q = s.lookupFile q := by
  unfold ConfigBackupManager.cleanup_old_backups
  rcases hl : m.list_backups F s with r
  cases r with
  | error e => rfl
  | ok backups =>
    simp only []
    split
    · rfl
    · apply cleanupLoop_frame_dir m F hq
      intro b hb
      exact list_backups_mem_dir hl hwfP b (List.drop_subset _ _ hb)

theorem create_backup_frame (m : ConfigBackupManager) (F : Faults) (now : Nat)
    (s : FsState) {q : FPath} (hq : q.dir ≠ m.backup_dir)
    (hwfP : BackupPathsLocalP m s.files) :
    ((m.create_backup F now s).1).lookupFile q = s.lookupFile q := by
  have hqp : q ≠ payloadPath m now := fun hh => hq (by rw [hh]; rfl)
  have hqs : q ≠ sidecarPath m now := fun hh => hq (by rw [hh]; rfl)
  unfold ConfigBackupManager.create_backup
  split
  · rfl
  · rcases he : m.ensure_backup_dir F s with ⟨s1, r1⟩
    have hs1f : s1.files = s.files := by
      have := ensure_backup_dir_files m F s
      rw [he] at this
      exact this
    have hs1 : s1.lookupFile q = s.lookupFile q := lookup_eq_of_files hs1f q
    cases r1 with
    | error e => simpa using hs1
    | ok _ =>
      simp only []
      rcases hcp : fsCopy F s1 m.config_path ⟨m.backup_dir, backupNameChars now⟩
        with ⟨s2, r2⟩
      have hs2 : s2.lookupFile q = s1.lookupFile q := by
        have := @fsCopy_lookup_ne F s1
          m.config_path ⟨m.backup_dir, backupNameChars now⟩ q hqp
        rw [hcp] at this
        exact this
      cases r2 with
      | error e => simpa using hs2.trans hs1
      | ok _ =>
        simp only []
        have hwf2 : BackupPathsLocalP m s2.files := by
          rcases fsCopy_ok_inv hcp with ⟨d, hda, hdb⟩
          rw [hdb]
          intro e he hd hn mm hmm
          rcases mem_files_insertFile he with h1 | h1
          · exfalso
            rw [h1] at hn
            simp only [] at hn
            rw [isMetaName_backupNameChars now] at hn
            cases hn
          · rw [hs1f] at h1
            exact hwfP e h1 hd hn mm hmm
        cases fsMetadataLen F s2 ⟨m.backup_dir, backupNameChars now⟩ with
        | error e => simpa using hs2.trans hs1
        | ok fsz =>
          simp only []
          cases m.calculate_checksum F s2 ⟨m.backup_dir, backupNameChars now⟩ with
          | error e => simpa using hs2.trans hs1
          | ok chk =>
            simp only []
            rcases hw : fsWrite F s2 ⟨m.backup_dir, metaNameChars now⟩
              (.json (BackupMetadata.toJson ⟨now, fsz, chk,
                ⟨m.backup_dir, backupNameChars now⟩⟩)) with ⟨s3, r3⟩
            have hs3 : s3.lookupFile q = s2.lookupFile q := by
              have h5 := fsWrite_lookup_ne F s2
                (p := ⟨m.backup_dir, metaNameChars now⟩) hqs
                (.json (BackupMetadata.toJson ⟨now, fsz, chk,
                  ⟨m.backup_dir, backupNameChars now⟩⟩))
              rw [hw] at h5
              exact h5
            cases r3 with
            | error e => simpa using (hs3.trans hs2).trans hs1
            | ok _ =>
              simp only []
              have hwf3 : BackupPathsLocalP m s3.files := by
                rcases fsWrite_ok_inv hw with h3 | h3 <;>
                  (rw [h3]; intro e he hd hn mm hmm) <;>
                  rcases mem_files_insertFile he with h1 | h1
                · rw [h1] at hmm
                  simp only [] at hmm
                  rw [metaOf_toJson] at hmm
                  cases hmm
                  rfl
                · exact hwf2 e h1 hd hn mm hmm
                · rw [h1] at hmm
                  simp only [metaOf] at hmm
                  cases hmm
                · exact hwf2 e h1 hd hn mm hmm
              rcases hcl : m.cleanup_old_backups F s3 with ⟨s4, r4⟩
              have hs4 : s4.lookupFile q = s3.lookupFile q := by
                have := cleanup_frame_dir m F hq hwf3
                rw [hcl] at this
                exact this
              cases r4 with
              | error e => simpa using ((hs4.trans hs3).trans hs2).trans hs1
              | ok _ =>
                simp only []
                exact ((hs4.trans hs3).trans hs2).trans hs1

theorem backupStep_frame (m : ConfigBackupManager) (F : Faults) (now : Nat)
    (s : FsState) {q : FPath} (hq : q.dir ≠ m.backup_dir)
    (hwfP : BackupPathsLocalP m s.files) :
    ((m.backupStep F now s).1).lookupFile q = s.lookupFile q := by
  unfold ConfigBackupManager.backupStep
  split
  · rcases hcb : m.create_backup F now s with ⟨s1, r1⟩
    have hfr : s1.lookupFile q = s.lookupFile q := by
      have := create_backup_frame m F now s hq hwfP
      rw [hcb] at this
      exact this
    cases r1 with
    | error e => simpa using hfr
    | ok _ => simpa using hfr
  · rfl

/-- Either `safe_save` succeeds, or it leaves the live config file's
contents exactly as they were. -/
theorem safe_save_ok_or_frame (m : ConfigBackupManager) (F : Faults)
    (now : Nat) (s : FsState) (ser : Except String Json)
    (hdirne : m.config_path.dir ≠ m.backup_dir)
    (htmp : m.config_path ≠ tmpPath m)
    (hwfP : BackupPathsLocalP m s.files) :
    (m.safe_save F now s ser).2 = .ok () ∨
      ((m.safe_save F now s ser).1).lookupFile m.config_path =
        s.lookupFile m.config_path := by
  unfold ConfigBackupManager.safe_save
  rcases hbs : m.backupStep F now s with ⟨s1, r1⟩
  have hs1 : s1.lookupFile m.config_path = s.lookupFile m.config_path := by
    have := backupStep_frame m F now s hdirne hwfP
    rw [hbs] at this
    exact this
  cases r1 with
  | error e1 => exact Or.inr hs1
  | ok _ =>
    cases ser with
    | error e2 => exact Or.inr hs1
    | ok j =>
      simp only []
      rcases hw : fsWrite F s1
        ⟨m.config_path.dir, withExtChars m.config_path.name "tmp".data⟩
        (.json j) with ⟨s2, r2⟩
      have hs2 : s2.lookupFile m.config_path = s1.lookupFile m.config_path := by
        have h5 := fsWrite_lookup_ne F s1
          (p := ⟨m.config_path.dir, withExtChars m.config_path.name "tmp".data⟩)
          htmp (.json j)
        rw [hw] at h5
        exact h5
      cases r2 with
      | error e2 => exact Or.inr (hs2.trans hs1)
      | ok _ =>
        simp only []
        cases hrd : fsRead F s2
          ⟨m.config_path.dir, withExtChars m.config_path.name "tmp".data⟩ with
        | error e3 => exact Or.inr (hs2.trans hs1)
        | ok d =>
          cases d with
          | garbage t => exact Or.inr (hs2.trans hs1)
          | json v =>
            simp only []
            rcases hrn : fsRename F s2
              ⟨m.config_path.dir, withExtChars m.config_path.name "tmp".data⟩
              m.config_path with ⟨s3, r3⟩
            cases r3 with
            | error e4 =>
              refine Or.inr ?_
              have := fsRename_error_state hrn
              rw [this]
              exact hs2.trans hs1
            | ok _ => exact Or.inl rfl

/-- Any failing `safe_save` leaves the live config file's contents exactly
as they were. -/
theorem safe_save_error_frame (m : ConfigBackupManager) (F : Faults)
    (now : Nat) (s : FsState) (ser : Except String Json)
    (hdirne : m.config_path.dir ≠ m.backup_dir)
    (htmp : m.config_path ≠ tmpPath m)
    (hwfP : BackupPathsLocalP m s.files) {e : String}
    (herr : (m.safe_save F now s ser).2 = .error e) :
    ((m.safe_save F now s ser).1).lookupFile m.config_path =
      s.lookupFile m.config_path := by
  rcases safe_save_ok_or_frame m F now s ser hdirne htmp hwfP with hok | hfr
  · rw [hok] at herr
    cases herr
  · exact hfr

/-- A failing `create_backup` aborts `safe_save` before the serialization
and temp-file stages. -/
theorem safe_save_backup_abort (m : ConfigBackupManager) (F : Faults)
    (now : Nat) (s : FsState) (ser : Except String Json)
    (hex : s.existsFile m.config_path = true) {e : String}
    (hcb : (m.create_backup F now s).2 = .error e) :
    m.safe_save F now s ser = ((m.create_backup F now s).1, .error e) := by
  unfold ConfigBackupManager.safe_save ConfigBackupManager.backupStep
  rw [if_pos hex]
  rcases hcb' : m.create_backup F now s with ⟨s1, r1⟩
  rw [hcb'] at hcb
  cases r1 with
  | error e1 =>
    simp only [] at hcb
    cases hcb
    rfl
  | ok _ => cases hcb

/-! ### Serde round-trip: field lookup stepping lemmas -/

theorem jLookup_cons_self (k : String) (v : Json) (fs : List (String × Json)) :
    jLookup ((k, v) :: fs) k = some v := by
  simp [jLookup, List.find?_cons]

theorem jLookup_cons_ne {k k' : String} (h : ¬ k' = k) (v : Json)
    (fs : List (String × Json)) : jLookup ((k', v) :: fs) k = jLookup fs k := by
  unfold jLookup
  rw [List.find?_cons_of_neg _ (by simpa using h)]

theorem jLookup_optField_ne {k k' : String} (h : ¬ k' = k) (o : Option Json)
    (rest : List (String × Json)) :
    jLookup (optField k' o ++ rest) k = jLookup rest k := by
  cases o with
  | none => rfl
  | some v =>
    show jLookup ((k', v) :: rest) k = jLookup rest k
    exact jLookup_cons_ne h v rest

theorem jReq_cons_self (k : String) (v : Json) (fs : List (String × Json))
    (f : Json → Option α) : jReq ((k, v) :: fs) k f = f v := by
  simp [jReq, jLookup_cons_self]

theorem jReq_cons_ne {k k' : String} (h : ¬ k' = k) (v : Json)
    (fs : List (String × Json)) (f : Json → Option α) :
    jReq ((k', v) :: fs) k f = jReq fs k f := by
  simp [jReq, jLookup_cons_ne h]

theorem jReq_optField_ne {k k' : String} (h : ¬ k' = k) (o : Option Json)
    (rest : List (String × Json)) (f : Json → Option α) :
    jReq (optField k' o ++ rest) k f = jReq rest k f := by
  simp [jReq, jLookup_optField_ne h]

theorem jOptF_cons_ne {k k' : String} (h : ¬ k' = k) (v : Json)
    (fs : List (String × Json)) (f : Json → Option α) :
    jOptF ((k', v) :: fs) k f = jOptF fs k f := by
  unfold jOptF
  rw [jLookup_cons_ne h]

theorem jOptF_optField_ne {k k' : String} (h : ¬ k' = k) (o : Option Json)
    (rest : List (String × Json)) (f : Json → Option α) :
    jOptF (optField k' o ++ rest) k f = jOptF rest k f := by
  unfold jOptF
  rw [jLookup_optField_ne h]

/-- Round-trip of one optional field: the encoded field is recovered,
provided the encoder hits the sub-parser (`hsub`), never produces `null`
(`hnull`), and the key does not recur later (`hrest`). -/
theorem jOptF_optField_self {α : Type} (k : String) (o : Option α)
    (enc : α → Json) (f : Json → Option α)
    (rest : List (String × Json))
    (hsub : ∀ a, f (enc a) = some a)
    (hnull : ∀ a, enc a ≠ Json.null)
    (hrest : jLookup rest k = none) :
    jOptF (optField k (o.map enc) ++ rest) k f = some o := by
  cases o with
  | none =>
    unfold jOptF
    show (match jLookup rest k with
      | none => some none
      | some .null => some none
      | some v => (f v).map some) = some none
    rw [hrest]
  | some a =>
    show jOptF ((k, enc a) :: rest) k f = some (some a)
    unfold jOptF
    rw [jLookup_cons_self]
    cases henc : enc a with
    | null => exact absurd henc (hnull a)
    | bool b' => simp only []; rw [← henc, hsub a]; rfl
    | num n' => simp only []; rw [← henc, hsub a]; rfl
    | str s' => simp only []; rw [← henc, hsub a]; rfl
    | arr l' => simp only []; rw [← henc, hsub a]; rfl
    | obj l' => simp only []; rw [← henc, hsub a]; rfl

theorem jAsInt_num (n : Int) : jAsInt (.num n) = some n := rfl

theorem jAsStr_str (s : String) : jAsStr (.str s) = some s := rfl

theorem jAsBool_bool (b : Bool) : jAsBool (.bool b) = some b := rfl

theorem jAsNat_natCast (n : Nat) : jAsNat (.num n) = some n := by
  unfold jAsNat
  simp only []
  rw [if_pos (Int.natCast_nonneg n)]
  simp

theorem jAsNat_jNum (n : Nat) : jAsNat (jNum n) = some n := jAsNat_natCast n

theorem jNum_ne_null (n : Nat) : jNum n ≠ Json.null := by
  simp [jNum]

theorem keyBalance_fromJson_toJson (b : KeyBalance) :
    KeyBalance.fromJson? b.toJson = some b := by
  unfold KeyBalance.toJson
  show KeyBalance.fromJson? (.obj b.toJsonFields) = some b
  unfold KeyBalance.fromJson? KeyBalance.toJsonFields
  simp only []
  rw [jReq_cons_self]
  rw [jReq_cons_ne (by decide), jReq_cons_self]
  rw [jReq_cons_ne (by decide), jReq_cons_ne (by decide), jReq_cons_self]
  rw [jReq_cons_ne (by decide), jReq_cons_ne (by decide),
    jReq_cons_ne (by decide), jReq_cons_self]
  rw [jOptF_cons_ne (by decide), jOptF_cons_ne (by decide),
    jOptF_cons_ne (by decide), jOptF_cons_ne (by decide)]
  have hof : jOptF (optField "last_checked" (b.last_checked.map Json.num) ++ [])
      "last_checked" jAsInt = some b.last_checked :=
    jOptF_optField_self _ _ _ _ _ jAsInt_num (fun a => by simp) rfl
  rw [List.append_nil] at hof
  rw [jAsInt_num, jAsInt_num, jAsInt_num, jAsInt_num, hof]
  rfl

theorem jLookup_optField_last {k k' : String} (h : ¬ k' = k) (o : Option Json) :
    jLookup (optField k' o) k = none := by
  cases o with
  | none => rfl
  | some v =>
    show jLookup ((k', v) :: []) k = none
    rw [jLookup_cons_ne h]
    rfl

theorem switchStrategy_fromJson_toJson (s : SwitchStrategy) :
    SwitchStrategy.fromJson? s.toJson = some s := by
  cases s <;> rfl

theorem parseAll_map {β γ : Type} (f : γ → β) (g : β → Option γ)
    (h : ∀ a, g (f a) = some a) (l : List γ) :
    parseAll g (l.map f) = some l := by
  induction l with
  | nil => rfl
  | cons a l ih => simp [parseAll, h, ih]


theorem apiKeyInfo_fromJson_toJson (k : ApiKeyInfo) :
    ApiKeyInfo.fromJson? k.toJson = some k := by
  show ApiKeyInfo.fromJson? (.obj k.toJsonFields) = some k
  unfold ApiKeyInfo.fromJson?
  simp only []
  have h1 : jReq k.toJsonFields "id" jAsStr = some k.id := by
    unfold ApiKeyInfo.toJsonFields
    rw [jReq_cons_self, jAsStr_str]
  have h2 : jReq k.toJsonFields "key" jAsStr = some k.key := by
    unfold ApiKeyInfo.toJsonFields
    rw [jReq_cons_ne (by decide), jReq_cons_self, jAsStr_str]
  have h3 : jOptF k.toJsonFields "name" jAsStr = some k.name := by
    unfold ApiKeyInfo.toJsonFields
    rw [jOptF_cons_ne (by decide), jOptF_cons_ne (by decide)]
    apply jOptF_optField_self _ _ _ _ _ jAsStr_str (fun a => by simp)
    rw [jLookup_cons_ne (by decide), jLookup_optField_ne (by decide),
      jLookup_optField_last (by decide)]
  have h4 : jReq k.toJsonFields "is_active" jAsBool = some k.is_active := by
    unfold ApiKeyInfo.toJsonFields
    rw [jReq_cons_ne (by decide), jReq_cons_ne (by decide),
      jReq_optField_ne (by decide), jReq_cons_self, jAsBool_bool]
  have h5 : jOptF k.toJsonFields "last_used" jAsInt = some k.last_used := by
    unfold ApiKeyInfo.toJsonFields
    rw [jOptF_cons_ne (by decide), jOptF_cons_ne (by decide),
      jOptF_optField_ne (by decide), jOptF_cons_ne (by decide)]
    apply jOptF_optField_self _ _ _ _ _ jAsInt_num (fun a => by simp)
    rw [jLookup_optField_last (by decide)]
  have h6 : jOptF k.toJsonFields "balance" KeyBalance.fromJson? = some k.balance := by
    unfold ApiKeyInfo.toJsonFields
    rw [jOptF_cons_ne (by decide), jOptF_cons_ne (by decide),
      jOptF_optField_ne (by decide), jOptF_cons_ne (by decide),
      jOptF_optField_ne (by decide)]
    have hlast := jOptF_optField_self "balance" k.balance KeyBalance.toJson
      KeyBalance.fromJson? [] keyBalance_fromJson_toJson
      (fun a => by simp [KeyBalance.toJson]) rfl
    rw [List.append_nil] at hlast
    exact hlast
  rw [h1, h2, h3, h4, h5, h6]
  rfl


theorem jAsApiKeyList_arr (l : List ApiKeyInfo) :
    jAsApiKeyList (.arr (l.map ApiKeyInfo.toJson)) = some l := by
  unfold jAsApiKeyList
  exact parseAll_map _ _ apiKeyInfo_fromJson_toJson l

theorem droidProvider_fromJson_toJson (p : DroidProvider) :
    DroidProvider.fromJson? p.toJson = some p := by
  show DroidProvider.fromFields? p.toJsonFields = some p
  unfold DroidProvider.fromFields?
  have h1 : jReq p.toJsonFields "id" jAsStr = some p.id := by
    unfold DroidProvider.toJsonFields
    rw [jReq_cons_self,
      jAsStr_str]
  have h2 : jReq p.toJsonFields "name" jAsStr = some p.name := by
    unfold DroidProvider.toJsonFields
    rw [jReq_cons_ne (by decide),
      jReq_cons_self,
      jAsStr_str]
  have h3 : jReq p.toJsonFields "api_key" jAsStr = some p.api_key := by
    unfold DroidProvider.toJsonFields
    rw [jReq_cons_ne (by decide),
      jReq_cons_ne (by decide),
      jReq_cons_self,
      jAsStr_str]
  have h4 : jOptF p.toJsonFields "api_keys" jAsApiKeyList = some p.api_keys := by
    unfold DroidProvider.toJsonFields
    rw [jOptF_cons_ne (by decide),
      jOptF_cons_ne (by decide),
      jOptF_cons_ne (by decide)]
    apply jOptF_optField_self _ _ _ _ _ jAsApiKeyList_arr (fun a => by simp)
    rw [jLookup_optField_ne (by decide),
      jLookup_optField_ne (by decide),
      jLookup_optField_ne (by decide),
      jLookup_optField_ne (by decide),
      jLookup_optField_ne (by decide),
      jLookup_optField_ne (by decide),
      jLookup_optField_ne (by decide),
      jLookup_optField_ne (by decide),
      jLookup_optField_ne (by decide),
      jLookup_optField_ne (by decide),
      jLookup_optField_last (by decide)]
  have h5 : jOptF p.toJsonFields "current_key_index" jAsNat = some p.current_key_index := by
    unfold DroidProvider.toJsonFields
    rw [jOptF_cons_ne (by decide),
      jOptF_cons_ne (by decide),
      jOptF_cons_ne (by decide),
      jOptF_optField_ne (by decide)]
    apply jOptF_optField_self _ _ _ _ _ jAsNat_jNum jNum_ne_null
    rw [jLookup_optField_ne (by decide),
      jLookup_optField_ne (by decide),
      jLookup_optField_ne (by decide),
      jLookup_optField_ne (by decide),
      jLookup_optField_ne (by decide),
      jLookup_optField_ne (by decide),
      jLookup_optField_ne (by decide),
      jLookup_optField_ne (by decide),
      jLookup_optField_ne (by decide),
      jLookup_optField_last (by decide)]
  have h6 : jOptF p.toJsonFields "switch_strategy" SwitchStrategy.fromJson? = some p.switch_strategy := by
    unfold DroidProvider.toJsonFields
    rw [jOptF_cons_ne (by decide),
      jOptF_cons_ne (by decide),
      jOptF_cons_ne (by decide),
      jOptF_optField_ne (by decide),
      jOptF_optField_ne (by decide)]
    apply jOptF_optField_self _ _ _ _ _ switchStrategy_fromJson_toJson (fun a => by cases a <;> simp [SwitchStrategy.toJson])
    rw [jLookup_optField_ne (by decide),
      jLookup_optField_ne (by decide),
      jLookup_optField_ne (by decide),
      jLookup_optField_ne (by decide),
      jLookup_optField_ne (by decide),
      jLookup_optField_ne (by decide),
      jLookup_optField_ne (by decide),
      jLookup_optField_ne (by decide),
      jLookup_optField_last (by decide)]
  have h7 : jOptF p.toJsonFields "base_url" jAsStr = some p.base_url := by
    unfold DroidProvider.toJsonFields
    rw [jOptF_cons_ne (by decide),
      jOptF_cons_ne (by decide),
      jOptF_cons_ne (by decide),
      jOptF_optField_ne (by decide),
      jOptF_optField_ne (by decide),
      jOptF_optField_ne (by decide)]
    apply jOptF_optField_self _ _ _ _ _ jAsStr_str (fun a => by simp)
    rw [jLookup_optField_ne (by decide),
      jLookup_optField_ne (by decide),
      jLookup_optField_ne (by decide),
      jLookup_optField_ne (by decide),
      jLookup_optField_ne (by decide),
      jLookup_optField_ne (by decide),
      jLookup_optField_ne (by decide),
      jLookup_optField_last (by decide)]
  have h8 : jOptF p.toJsonFields "model" jAsStr = some p.model := by
    unfold DroidProvider.toJsonFields
    rw [jOptF_cons_ne (by decide),
      jOptF_cons_ne (by decide),
      jOptF_cons_ne (by decide),
      jOptF_optField_ne (by decide),
      jOptF_optField_ne (by decide),
      jOptF_optField_ne (by decide),
      jOptF_optField_ne (by decide)]
    apply jOptF_optField_self _ _ _ _ _ jAsStr_str (fun a => by simp)
    rw [jLookup_optField_ne (by decide),
      jLookup_optField_ne (by decide),
      jLookup_optField_ne (by decide),
      jLookup_optField_ne (by decide),
      jLookup_optField_ne (by decide),
      jLookup_optField_ne (by decide),
      jLookup_optField_last (by decide)]
  have h9 : jOptF p.toJsonFields "model_display_name" jAsStr = some p.model_display_name := by
    unfold DroidProvider.toJsonFields
    rw [jOptF_cons_ne (by decide),
      jOptF_cons_ne (by decide),
      jOptF_cons_ne (by decide),
      jOptF_optField_ne (by decide),
      jOptF_optField_ne (by decide),
      jOptF_optField_ne (by decide),
      jOptF_optField_ne (by decide),
      jOptF_optField_ne (by decide)]
    apply jOptF_optField_self _ _ _ _ _ jAsStr_str (fun a => by simp)
    rw [jLookup_optField_ne (by decide),
      jLookup_optField_ne (by decide),
      jLookup_optField_ne (by decide),
      jLookup_optField_ne (by decide),
      jLookup_optField_ne (by decide),
      jLookup_optField_last (by decide)]
  have h10 : jOptF p.toJsonFields "provider" jAsStr = some p.provider := by
    unfold DroidProvider.toJsonFields
    rw [jOptF_cons_ne (by decide),
      jOptF_cons_ne (by decide),
      jOptF_cons_ne (by decide),
      jOptF_optField_ne (by decide),
      jOptF_optField_ne (by decide),
      jOptF_optField_ne (by decide),
      jOptF_optField_ne (by decide),
      jOptF_optField_ne (by decide),
      jOptF_optField_ne (by decide)]
    apply jOptF_optField_self _ _ _ _ _ jAsStr_str (fun a => by simp)
    rw [jLookup_optField_ne (by decide),
      jLookup_optField_ne (by decide),
      jLookup_optField_ne (by decide),
      jLookup_optField_ne (by decide),
      jLookup_optField_last (by decide)]
  have h11 : jOptF p.toJsonFields "max_tokens" jAsInt = some p.max_tokens := by
    unfold DroidProvider.toJsonFields
    rw [jOptF_cons_ne (by decide),
      jOptF_cons_ne (by decide),
      jOptF_cons_ne (by decide),
      jOptF_optField_ne (by decide),
      jOptF_optField_ne (by decide),
      jOptF_optField_ne (by decide),
      jOptF_optField_ne (by decide),
      jOptF_optField_ne (by decide),
      jOptF_optField_ne (by decide),
      jOptF_optField_ne (by decide)]
    apply jOptF_optField_self _ _ _ _ _ jAsInt_num (fun a => by simp)
    rw [jLookup_optField_ne (by decide),
      jLookup_optField_ne (by decide),
      jLookup_optField_ne (by decide),
      jLookup_optField_last (by decide)]
  have h12 : jOptF p.toJsonFields "supports_prompt_caching" jAsBool = some p.supports_prompt_caching := by
    unfold DroidProvider.toJsonFields
    rw [jOptF_cons_ne (by decide),
      jOptF_cons_ne (by decide),
      jOptF_cons_ne (by decide),
      jOptF_optField_ne (by decide),
      jOptF_optField_ne (by decide),
      jOptF_optField_ne (by decide),
      jOptF_optField_ne (by decide),
      jOptF_optField_ne (by decide),
      jOptF_optField_ne (by decide),
      jOptF_optField_ne (by decide),
      jOptF_optField_ne (by decide)]
    apply jOptF_optField_self _ _ _ _ _ jAsBool_bool (fun a => by simp)
    rw [jLookup_optField_ne (by decide),
      jLookup_optField_ne (by decide),
      jLookup_optField_last (by decide)]
  have h13 : jOptF p.toJsonFields "created_at" jAsNat = some p.created_at := by
    unfold DroidProvider.toJsonFields
    rw [jOptF_cons_ne (by decide),
      jOptF_cons_ne (by decide),
      jOptF_cons_ne (by decide),
      jOptF_optField_ne (by decide),
      jOptF_optField_ne (by decide),
      jOptF_optField_ne (by decide),
      jOptF_optField_ne (by decide),
      jOptF_optField_ne (by decide),
      jOptF_optField_ne (by decide),
      jOptF_optField_ne (by decide),
      jOptF_optField_ne (by decide),
      jOptF_optField_ne (by decide)]
    apply jOptF_optField_self _ _ _ _ _ jAsNat_jNum jNum_ne_null
    rw [jLookup_optField_ne (by decide),
      jLookup_optField_last (by decide)]
  have h14 : jOptF p.toJsonFields "balance" KeyBalance.fromJson? = some p.balance := by
    unfold DroidProvider.toJsonFields
    rw [jOptF_cons_ne (by decide),
      jOptF_cons_ne (by decide),
      jOptF_cons_ne (by decide),
      jOptF_optField_ne (by decide),
      jOptF_optField_ne (by decide),
      jOptF_optField_ne (by decide),
      jOptF_optField_ne (by decide),
      jOptF_optField_ne (by decide),
      jOptF_optField_ne (by decide),
      jOptF_optField_ne (by decide),
      jOptF_optField_ne (by decide),
      jOptF_optField_ne (by decide),
      jOptF_optField_ne (by decide)]
    apply jOptF_optField_self _ _ _ _ _ keyBalance_fromJson_toJson (fun a => by simp [KeyBalance.toJson])
    rw [jLookup_optField_last (by decide)]
  have h15 : jOptF p.toJsonFields "is_invalid" jAsBool = some p.is_invalid := by
    unfold DroidProvider.toJsonFields
    rw [jOptF_cons_ne (by decide),
      jOptF_cons_ne (by decide),
      jOptF_cons_ne (by decide),
      jOptF_optField_ne (by decide),
      jOptF_optField_ne (by decide),
      jOptF_optField_ne (by decide),
      jOptF_optField_ne (by decide),
      jOptF_optField_ne (by decide),
      jOptF_optField_ne (by decide),
      jOptF_optField_ne (by decide),
      jOptF_optField_ne (by decide),
      jOptF_optField_ne (by decide),
      jOptF_optField_ne (by decide),
      jOptF_optField_ne (by decide)]
    have hlast := jOptF_optField_self "is_invalid" p.is_invalid Json.bool jAsBool [] jAsBool_bool (fun a => by simp) rfl
    rw [List.append_nil] at hlast
    exact hlast
  rw [h1, h2, h3, h4, h5, h6, h7, h8, h9, h10, h11, h12, h13, h14, h15]
  rfl


theorem jAsDroidProviderList_arr (l : List DroidProvider) :
    jAsDroidProviderList (.arr (l.map DroidProvider.toJson)) = some l := by
  unfold jAsDroidProviderList
  exact parseAll_map _ _ droidProvider_fromJson_toJson l

theorem droidManagerConfig_fromJson_toJson (c : DroidManagerConfig) :
    DroidManagerConfig.fromJson? c.toJson = some c := by
  unfold DroidManagerConfig.toJson DroidManagerConfig.fromJson?
  simp only []
  rw [jReq_cons_self, jAsDroidProviderList_arr]
  rw [jReq_cons_ne (by decide), jReq_cons_self, jAsStr_str]
  rfl

theorem DroidManagerConfig.toJson_ne_null (c : DroidManagerConfig) :
    c.toJson ≠ Json.null := by
  simp [DroidManagerConfig.toJson]

theorem providerManager_fromJson_toJson (pm : ProviderManager) :
    ProviderManager.fromJson? pm.toJson = some pm := rfl

theorem mcpConfig_fromJson_toJson (c : McpConfig) :
    McpConfig.fromJson? c.toJson = some c := rfl

theorem mcpRoot_fromJson_toJson (r : McpRoot) :
    McpRoot.fromJson? r.toJson = some r := rfl

theorem jLookup_append_not_keys {l rest : List (String × Json)} {k : String}
    (h : ∀ e ∈ l, ¬ e.1 = k) : jLookup (l ++ rest) k = jLookup rest k := by
  induction l with
  | nil => rfl
  | cons a l ih =>
    rcases a with ⟨k', v⟩
    rw [List.cons_append, jLookup_cons_ne (h (k', v) (List.mem_cons_self _ _)),
      ih (fun e he => h e (List.mem_cons_of_mem _ he))]

theorem validDoc_keys {c : MultiAppConfig} (h : validDoc c = true) :
    ∀ e ∈ c.apps, ¬ e.1 ∈ reservedKeys ∧ ¬ e.1 = "providers" := by
  intro e he
  have h2 := (Bool.and_eq_true_iff.mp (Bool.and_eq_true_iff.mp h).1).2
  have := List.all_eq_true.mp h2 e he
  rcases Bool.and_eq_true_iff.mp this with ⟨ha, hb⟩
  exact ⟨of_decide_eq_true ha, of_decide_eq_true hb⟩

theorem validDoc_version {c : MultiAppConfig} (h : validDoc c = true) :
    c.version < 2 ^ 32 :=
  of_decide_eq_true (Bool.and_eq_true_iff.mp h).2

theorem multiAppConfig_fromJson_toJson (c : MultiAppConfig)
    (h : validDoc c = true) :
    MultiAppConfig.fromJson? c.toJson = some c := by
  show MultiAppConfig.fromFields? c.toJsonFields = some c
  unfold MultiAppConfig.fromFields?
  have hkeys := validDoc_keys h
  have happne : ∀ (k : String), k ∈ reservedKeys →
      ∀ e ∈ c.apps.map (fun e => (e.1, e.2.toJson)), ¬ e.1 = k := by
    intro k hk e he hek
    rcases List.mem_map.mp he with ⟨a, ha, hae⟩
    have hres := (hkeys a ha).1
    rw [← hae] at hek
    simp only [] at hek
    rw [hek] at hres
    exact hres hk
  have hver : (match jLookup c.toJsonFields "version" with
      | none => some default_version
      | some (.num n) => if 0 ≤ n ∧ n < (2 : Int) ^ 32 then some n.toNat else none
      | some _ => none) = some c.version := by
    unfold MultiAppConfig.toJsonFields
    rw [jLookup_cons_self]
    simp only []
    rw [if_pos ⟨Int.natCast_nonneg c.version, by exact_mod_cast validDoc_version h⟩]
    simp
  have hmcp : (match jLookup c.toJsonFields "mcp" with
      | none => some McpRoot.default
      | some v => McpRoot.fromJson? v) = some c.mcp := by
    unfold MultiAppConfig.toJsonFields
    rw [jLookup_cons_ne (by decide),
      jLookup_append_not_keys (happne "mcp" (by decide)),
      jLookup_cons_self]
    simp only []
    rw [mcpRoot_fromJson_toJson]
  have hdm : jOptF c.toJsonFields "droid_manager" DroidManagerConfig.fromJson? =
      some c.droid_manager := by
    unfold MultiAppConfig.toJsonFields
    rw [jOptF_cons_ne (by decide)]
    unfold jOptF
    rw [jLookup_append_not_keys (happne "droid_manager" (by decide)),
      jLookup_cons_ne (by decide)]
    cases hcd : c.droid_manager with
    | none => rfl
    | some dm =>
      show (match jLookup [("droid_manager", dm.toJson)] "droid_manager" with
        | none => some none
        | some .null => some none
        | some v => (DroidManagerConfig.fromJson? v).map some) = some (some dm)
      rw [jLookup_cons_self]
      cases hej : dm.toJson with
      | null => exact absurd hej (DroidManagerConfig.toJson_ne_null dm)
      | bool b' => simp only []; rw [← hej, droidManagerConfig_fromJson_toJson]; rfl
      | num n' => simp only []; rw [← hej, droidManagerConfig_fromJson_toJson]; rfl
      | str s' => simp only []; rw [← hej, droidManagerConfig_fromJson_toJson]; rfl
      | arr l' => simp only []; rw [← hej, droidManagerConfig_fromJson_toJson]; rfl
      | obj l' => simp only []; rw [← hej, droidManagerConfig_fromJson_toJson]; rfl
  have hfilter : c.toJsonFields.filter
      (fun (e : String × Json) => decide (¬ e.1 ∈ reservedKeys)) =
      c.apps.map (fun e => (e.1, e.2.toJson)) := by
    unfold MultiAppConfig.toJsonFields
    rw [List.filter_cons_of_neg (by simp [reservedKeys])]
    rw [List.filter_append]
    rw [List.filter_cons_of_neg (by simp [reservedKeys])]
    have hof : (optField "droid_manager"
        (c.droid_manager.map DroidManagerConfig.toJson)).filter
        (fun (e : String × Json) => decide (¬ e.1 ∈ reservedKeys)) = [] := by
      cases c.droid_manager with
      | none => rfl
      | some dm =>
        show List.filter _ [("droid_manager", dm.toJson)] = []
        rw [List.filter_cons_of_neg (by simp [reservedKeys])]
        rfl
    rw [hof, List.append_nil]
    apply List.filter_eq_self.mpr
    intro e he
    rcases List.mem_map.mp he with ⟨a, ha, hae⟩
    apply decide_eq_true
    rw [← hae]
    simp only []
    exact (hkeys a ha).1
  have happs : parseAll
      (fun (e : String × Json) =>
        (ProviderManager.fromJson? e.2).map (fun pm => (e.1, pm)))
      (c.toJsonFields.filter
        (fun (e : String × Json) => decide (¬ e.1 ∈ reservedKeys))) =
      some c.apps := by
    rw [hfilter]
    have := parseAll_map (β := String × Json) (γ := String × ProviderManager)
      (fun e => (e.1, e.2.toJson))
      (fun e => (ProviderManager.fromJson? e.2).map (fun pm => (e.1, pm)))
      (fun a => by
        show (ProviderManager.fromJson? a.2.toJson).map
          (fun pm => (a.1, pm)) = some a
        rw [providerManager_fromJson_toJson]
        rfl) c.apps
    exact this
  rw [hver, hmcp, hdm, happs]
  rfl

/-! ### The v2 serialization never satisfies the v1 shape -/

theorem v1Parse_toJson_none (c : MultiAppConfig) (h : validDoc c = true) :
    ProviderManager.fromJson? c.toJson = none := by
  show ProviderManager.fromJson? (.obj c.toJsonFields) = none
  unfold ProviderManager.fromJson?
  have hnp : jLookup c.toJsonFields "providers" = none := by
    unfold MultiAppConfig.toJsonFields
    rw [jLookup_cons_ne (by decide)]
    rw [jLookup_append_not_keys ?happ]
    case happ =>
      intro e he hek
      rcases List.mem_map.mp he with ⟨a, ha, hae⟩
      have hp := (validDoc_keys h a ha).2
      rw [← hae] at hek
      simp only [] at hek
      exact hp hek
    rw [jLookup_cons_ne (by decide)]
    cases c.droid_manager with
    | none => rfl
    | some dm =>
      show jLookup [("droid_manager", dm.toJson)] "providers" = none
      rw [jLookup_cons_ne (by decide)]
      rfl
  simp only []
  rw [hnp]

/-! ### Load-level lemmas -/

theorem appBM_config_path : appBM.config_path = appConfigPath := rfl

theorem appBM_backup_dir : appBM.backup_dir = "config_dir/backups" := rfl

theorem appBM_max_backups : appBM.max_backups = 10 := rfl

theorem lookupFile_insertFile_same (s : FsState) (p q : FPath) (d : FileData)
    (h : s.lookupFile q = some d) :
    (s.insertFile p d).lookupFile q = some d := by
  by_cases hpq : q = p
  · rw [hpq]
    exact lookupFile_insertFile_self s p d
  · rw [lookupFile_insertFile_ne s hpq]
    exact h

theorem load_no_file {F : Faults} {now : Nat} {s : FsState}
    (h : s.existsFile appConfigPath = false) :
    MultiAppConfig.load F now s = (s, .ok MultiAppConfig.default) := by
  unfold MultiAppConfig.load
  rw [if_pos (by rw [h]; exact Bool.false_ne_true)]

theorem verify_config_json {F : Faults} {s : FsState} {v : Json}
    (hc : s.lookupFile appConfigPath = some (.json v))
    (hr : F.readFail appConfigPath = false) :
    appBM.verify_config F s = .ok true := by
  unfold ConfigBackupManager.verify_config
  have hex : s.existsFile appBM.config_path = true := by
    rw [appBM_config_path]
    unfold FsState.existsFile
    rw [hc]
    rfl
  rw [if_neg (by rw [hex]; exact fun hh => hh rfl)]
  unfold fsRead
  rw [show appBM.config_path = appConfigPath from rfl, hr]
  rw [if_neg Bool.false_ne_true, hc]

theorem load_verified {F : Faults} {now : Nat} {s : FsState} {v : Json}
    (hc : s.lookupFile appConfigPath = some (.json v))
    (hr : F.readFail appConfigPath = false) :
    MultiAppConfig.load F now s = MultiAppConfig.loadBody F now s := by
  unfold MultiAppConfig.load
  have hex : s.existsFile appConfigPath = true := by
    unfold FsState.existsFile
    rw [hc]
    rfl
  rw [if_neg (by rw [hex]; exact fun hh => hh rfl)]
  rw [verify_config_json hc hr]

theorem loadBody_v2 {F : Faults} {now : Nat} {s : FsState} {v : Json}
    (hc : s.lookupFile appConfigPath = some (.json v))
    (hr : F.readFail appConfigPath = false)
    (hv1 : ProviderManager.fromJson? v = none) :
    MultiAppConfig.loadBody F now s =
      (s, match MultiAppConfig.fromJson? v with
          | some c => .ok c
          | none => .error "解析配置文件失败") := by
  unfold MultiAppConfig.loadBody
  unfold fsRead
  rw [hr]
  rw [if_neg Bool.false_ne_true, hc]
  simp only []
  unfold v1Parse
  simp only []
  rw [hv1]
  simp only []
  cases MultiAppConfig.fromJson? v with
  | some c => rfl
  | none => rfl

theorem loadBody_v1_noFaults {now : Nat} {s : FsState} {v : Json}
    {pm : ProviderManager}
    (hc : s.lookupFile appConfigPath = some (.json v))
    (hv1 : ProviderManager.fromJson? v = some pm) :
    MultiAppConfig.loadBody noFaults now s =
      (((((appBM.cleanup_old_backups noFaults
            (midState appBM now
              (s.insertFile ⟨appConfigDir, v1BackupNameChars now⟩ (.json v))
              (.json v))).1).insertFile
          (tmpPath appBM) (.json (migratedDoc pm).toJson)).removeFile
          (tmpPath appBM)).insertFile appConfigPath
            (.json (migratedDoc pm).toJson),
        .ok (migratedDoc pm)) := by
  unfold MultiAppConfig.loadBody
  rw [fsRead_noFaults_some hc]
  simp only []
  unfold v1Parse
  simp only []
  rw [hv1]
  simp only []
  rw [fsCopy_noFaults_some hc ⟨appConfigDir, v1BackupNameChars now⟩]
  simp only []
  unfold MultiAppConfig.save
  have hc1 : (s.insertFile ⟨appConfigDir, v1BackupNameChars now⟩
      (.json v)).lookupFile appConfigPath = some (.json v) :=
    lookupFile_insertFile_same s _ _ _ hc
  rw [show migratedDoc pm = (migratedDoc pm) from rfl]
  rw [safe_save_noFaults_old appBM now hc1 (migratedDoc pm).toJson]
  simp only []
  rfl

theorem load_verify_error {F : Faults} {now : Nat} {s : FsState} {e' : String}
    (hex : s.existsFile appConfigPath = true)
    (hverr : appBM.verify_config F s = .error e') :
    MultiAppConfig.load F now s =
      (match appBM.restore_from_latest F s with
       | (s1, .error _) => (s1, .ok MultiAppConfig.default)
       | (s1, .ok _) => MultiAppConfig.loadBody F now s1) := by
  unfold MultiAppConfig.load
  rw [if_neg (by rw [hex]; exact fun hh => hh rfl)]
  rw [hverr]

/-! ## The claims -/

/-- C6: whenever the config file exists but fails verification, `load`
attempts `restore_from_latest` internally; the verification failure is never
surfaced, and when restoration fails `load` returns `Ok` with a default
document rather than an error; when restoration succeeds `load` proceeds to
the normal read/parse phase on the restored state. -/
theorem claim_C6 (F : Faults) (now : Nat) (s : FsState)
    (hex : s.existsFile appConfigPath = true)
    (hverr : appBM.verify_config F s ≠ .ok true) :
    (∀ s1 er, appBM.restore_from_latest F s = (s1, .error er) →
      MultiAppConfig.load F now s = (s1, .ok MultiAppConfig.default)) ∧
    (∀ s1 u, appBM.restore_from_latest F s = (s1, .ok u) →
      MultiAppConfig.load F now s = MultiAppConfig.loadBody F now s1) := by
  constructor
  · intro s1 er hr
    unfold MultiAppConfig.load
    rw [if_neg (fun hn => hn hex)]
    cases hv : appBM.verify_config F s with
    | error e1 =>
      simp only []
      rw [hr]
    | ok b =>
      cases b with
      | true => exact absurd hv hverr
      | false =>
        simp only []
        rw [hr]
  · intro s1 u hr
    unfold MultiAppConfig.load
    rw [if_neg (fun hn => hn hex)]
    cases hv : appBM.verify_config F s with
    | error e1 =>
      simp only []
      rw [hr]
    | ok b =>
      cases b with
      | true => exact absurd hv hverr
      | false =>
        simp only []
        rw [hr]

theorem claim_C6_witness :
    MultiAppConfig.load noFaults 0 ⟨[(appConfigPath, .garbage 0)], []⟩ =
      (⟨[(appConfigPath, .garbage 0)], []⟩, .ok MultiAppConfig.default) :=
  (claim_C6 noFaults 0 ⟨[(appConfigPath, .garbage 0)], []⟩ rfl
    (fun h => Except.noConfusion h)).1 _ "没有可用的备份" rfl

/-- C3, counterexample: a syntactically valid v2 file that simply omits all
app keys loads successfully into a document whose `apps` map is empty, so
after this successful `load` the apps map does not contain the canonical
keys "claude" and "codex". -/
theorem claim_C3_counterexample :
    (MultiAppConfig.load noFaults 0
        ⟨[(appConfigPath, .json (.obj [("version", jNum 2)]))], []⟩).2 =
      .ok ⟨2, [], McpRoot.default, none⟩ ∧
    (((⟨2, [], McpRoot.default, none⟩ : MultiAppConfig).apps.map
        Prod.fst).contains "claude") = false :=
  ⟨rfl, rfl⟩

/-- C3, amended: on the no-file path `load` returns the default document and
on the v1-migration path it returns the migrated document, and both carry
exactly the canonical app keys "claude" and "codex"; the guarantee fails
only on the direct v2 deserialization path. -/
theorem claim_C3_amended (F : Faults) (now now' : Nat) (s s' : FsState)
    (v : Json) (pm : ProviderManager)
    (h1 : s.existsFile appConfigPath = false)
    (hc : s'.lookupFile appConfigPath = some (.json v))
    (hpm : ProviderManager.fromJson? v = some pm) :
    (∃ c, (MultiAppConfig.load F now s).2 = .ok c ∧
      c.apps.map Prod.fst = ["claude", "codex"]) ∧
    (∃ c, (MultiAppConfig.load noFaults now' s').2 = .ok c ∧
      c.apps.map Prod.fst = ["claude", "codex"]) := by
  constructor
  · refine ⟨MultiAppConfig.default, ?_, rfl⟩
    rw [load_no_file h1]
  · refine ⟨migratedDoc pm, ?_, rfl⟩
    rw [load_verified hc rfl, loadBody_v1_noFaults hc hpm]

theorem claim_C3_amended_witness :
    (∃ c, (MultiAppConfig.load noFaults 0 ⟨[], []⟩).2 = .ok c ∧
      c.apps.map Prod.fst = ["claude", "codex"]) ∧
    (∃ c, (MultiAppConfig.load noFaults 0
        ⟨[(appConfigPath, .json (.obj [("providers", .obj [])]))], []⟩).2 =
        .ok c ∧
      c.apps.map Prod.fst = ["claude", "codex"]) :=
  claim_C3_amended noFaults 0 0 ⟨[], []⟩
    ⟨[(appConfigPath, .json (.obj [("providers", .obj [])]))], []⟩
    (.obj [("providers", .obj [])]) ⟨[]⟩ rfl rfl rfl

/-- C4: format discrimination is structural: when the raw content parses as
the flat v1 registry shape, `load` migrates unconditionally (regardless of
any version field present); only when that parse fails does `load` fall
through to the full v2 deserialization. -/
theorem claim_C4 (now : Nat) (s : FsState) (v : Json)
    (hc : s.lookupFile appConfigPath = some (.json v)) :
    (∀ pm, ProviderManager.fromJson? v = some pm →
      (MultiAppConfig.load noFaults now s).2 = .ok (migratedDoc pm)) ∧
    (ProviderManager.fromJson? v = none →
      MultiAppConfig.load noFaults now s =
        (s, match MultiAppConfig.fromJson? v with
            | some c => .ok c
            | none => .error "解析配置文件失败")) := by
  constructor
  · intro pm hpm
    rw [load_verified hc rfl, loadBody_v1_noFaults hc hpm]
  · intro hnone
    rw [load_verified hc rfl, loadBody_v2 hc rfl hnone]

theorem claim_C4_witness :
    (MultiAppConfig.load noFaults 3
      ⟨[(appConfigPath,
          .json (.obj [("providers", .obj []), ("version", jNum 2)]))],
        []⟩).2 = .ok (migratedDoc ⟨[]⟩) :=
  (claim_C4 3 ⟨[(appConfigPath,
      .json (.obj [("providers", .obj []), ("version", jNum 2)]))], []⟩
    (.obj [("providers", .obj []), ("version", jNum 2)]) rfl).1 ⟨[]⟩ rfl

/-- C9, counterexample: two consecutive `create_backup` calls within the
same second (equal `now`) both succeed but record the very same stored
payload path, so they do not yield two distinct stored payload/sidecar
pairs: the second call names the first call's files and overwrites them. -/
theorem claim_C9_counterexample :
    (appBM.create_backup noFaults 5
        ⟨[(appConfigPath, .json (.str "a"))], []⟩).2 =
      .ok (freshMeta appBM 5 (.json (.str "a"))) ∧
    (appBM.create_backup noFaults 5
        (((appBM.create_backup noFaults 5
            ⟨[(appConfigPath, .json (.str "a"))], []⟩).1).insertFile
          appConfigPath (.json (.str "b")))).2 =
      .ok (freshMeta appBM 5 (.json (.str "b"))) ∧
    (freshMeta appBM 5 (.json (.str "a"))).backup_path =
      (freshMeta appBM 5 (.json (.str "b"))).backup_path := by
  refine ⟨?_, ?_, rfl⟩
  · rw [create_backup_noFaults appBM 5
      (s := ⟨[(appConfigPath, .json (.str "a"))], []⟩)
      (c := .json (.str "a")) rfl]
  · rw [create_backup_noFaults appBM 5
      (s := ((appBM.create_backup noFaults 5
          ⟨[(appConfigPath, .json (.str "a"))], []⟩).1).insertFile
        appConfigPath (.json (.str "b")))
      (c := .json (.str "b")) (lookupFile_insertFile_self _ appConfigPath _)]

/-- C9, amended: the timestamp is a unique id across distinct seconds: two
backups created at distinct timestamps occupy distinct payload paths and
distinct sidecar paths (the decimal second count is injectively encoded into
both file names). -/
theorem claim_C9_amended (m : ConfigBackupManager) (t1 t2 : Nat)
    (h : t1 ≠ t2) :
    payloadPath m t1 ≠ payloadPath m t2 ∧
    sidecarPath m t1 ≠ sidecarPath m t2 := by
  constructor
  · intro he
    exact h (backupNameChars_injective (congrArg FPath.name he))
  · intro he
    exact h (metaNameChars_injective (congrArg FPath.name he))

theorem claim_C9_amended_witness :
    payloadPath appBM 1 ≠ payloadPath appBM 2 ∧
    sidecarPath appBM 1 ≠ sidecarPath appBM 2 :=
  claim_C9_amended appBM 1 2 (by decide)

/-- C1: whenever `safe_save` returns an error — which covers failures at the
serialization, temp-file-write, re-validation and rename stages — the live
config file's contents are exactly what they were before the call (the
temporary sibling may remain), provided every metadata sidecar in the store
points into the backup directory (the only kind `create_backup` writes). -/
theorem claim_C1 (F : Faults) (now : Nat) (s : FsState)
    (ser : Except String Json) (e : String)
    (hwf : backupPathsLocal appBM s = true)
    (herr : (appBM.safe_save F now s ser).2 = .error e) :
    ((appBM.safe_save F now s ser).1).lookupFile appConfigPath =
      s.lookupFile appConfigPath :=
  safe_save_error_frame appBM F now s ser (by decide) (by decide)
    (backupPathsLocalP_of_bool hwf) herr

theorem claim_C1_witness :
    ((appBM.safe_save
        { noFaults with writeFail := fun p => decide (p = tmpPath appBM) }
        0 ⟨[], []⟩ (.ok (.str "b"))).1).lookupFile appConfigPath =
      (⟨[], []⟩ : FsState).lookupFile appConfigPath :=
  claim_C1
    { noFaults with writeFail := fun p => decide (p = tmpPath appBM) }
    0 ⟨[], []⟩ (.ok (.str "b")) "写入临时文件失败" rfl rfl

/-- C10: when the live config exists and its `create_backup` step fails,
`safe_save` aborts with that very error before the serialize/temp-write
stages, leaving both the live config file and the temporary path exactly as
they were — a save can never succeed without its predecessor backup. -/
theorem claim_C10 (F : Faults) (now : Nat) (s : FsState)
    (ser : Except String Json) (e : String)
    (hex : s.existsFile appConfigPath = true)
    (hwf : backupPathsLocal appBM s = true)
    (hcb : (appBM.create_backup F now s).2 = .error e) :
    (appBM.safe_save F now s ser).2 = .error e ∧
    ((appBM.safe_save F now s ser).1).lookupFile appConfigPath =
      s.lookupFile appConfigPath ∧
    ((appBM.safe_save F now s ser).1).lookupFile (tmpPath appBM) =
      s.lookupFile (tmpPath appBM) := by
  have habort := safe_save_backup_abort appBM F now s ser hex hcb
  refine ⟨by rw [habort], ?_, ?_⟩
  · rw [habort]
    exact create_backup_frame appBM F now s (by decide)
      (backupPathsLocalP_of_bool hwf)
  · rw [habort]
    exact create_backup_frame appBM F now s (by decide)
      (backupPathsLocalP_of_bool hwf)

theorem claim_C10_witness :
    (appBM.safe_save { noFaults with copyFail := fun _ _ => true } 0
        ⟨[(appConfigPath, .json (.str "a"))], []⟩ (.ok (.str "b"))).2 =
      .error "复制文件失败" ∧
    ((appBM.safe_save { noFaults with copyFail := fun _ _ => true } 0
        ⟨[(appConfigPath, .json (.str "a"))], []⟩ (.ok (.str "b"))).1).lookupFile
        appConfigPath =
      (⟨[(appConfigPath, .json (.str "a"))], []⟩ : FsState).lookupFile
        appConfigPath ∧
    ((appBM.safe_save { noFaults with copyFail := fun _ _ => true } 0
        ⟨[(appConfigPath, .json (.str "a"))], []⟩ (.ok (.str "b"))).1).lookupFile
        (tmpPath appBM) =
      (⟨[(appConfigPath, .json (.str "a"))], []⟩ : FsState).lookupFile
        (tmpPath appBM) :=
  claim_C10 { noFaults with copyFail := fun _ _ => true } 0
    ⟨[(appConfigPath, .json (.str "a"))], []⟩ (.ok (.str "b"))
    "复制文件失败" rfl rfl rfl

/-- C2: a fault-free `safe_save` on a pre-existing live config file
succeeds, and afterwards the backup listing contains an entry stamped with
the save's time whose stored payload is exactly the document state from
before the save — the backup of the old state happens before the new state
is written anywhere (under the store invariants that sidecars are canonical,
paths are duplicate-free and stored timestamps predate the save). -/
theorem claim_C2 (now : Nat) (s : FsState) (j : Json) (c : FileData)
    (hc : s.lookupFile appConfigPath = some c)
    (hwf : sidecarsCanonical appBM s = true)
    (hnd : pathsNodup s = true)
    (hfresh : ∀ mm ∈ collectMetas appBM s.files, mm.timestamp < now) :
    (appBM.safe_save noFaults now s (.ok j)).2 = .ok () ∧
    ∃ mm, mm ∈ listPure appBM ((appBM.safe_save noFaults now s (.ok j)).1) ∧
      mm.timestamp = now ∧
      ((appBM.safe_save noFaults now s (.ok j)).1).lookupFile mm.backup_path
        = some c := by
  have hc' : s.lookupFile appBM.config_path = some c := hc
  have hl := create_backup_listing appBM now (by decide) hc'
    (canonical_of_bool hwf) (of_decide_eq_true hnd) hfresh
  rcases hl with ⟨_, hlist, hpay, _⟩
  rw [safe_save_noFaults_old appBM now hc' j]
  have hqc : appBM.config_path.dir ≠ appBM.backup_dir := by decide
  have hqt : (tmpPath appBM).dir ≠ appBM.backup_dir := by decide
  have hdc : appBM.backup_dir ≠ appBM.config_path.dir := by decide
  have hdt : appBM.backup_dir ≠ (tmpPath appBM).dir := by decide
  have hne_cfg : (freshMeta appBM now c).backup_path ≠ appBM.config_path :=
    fun hh => hdc (congrArg FPath.dir hh)
  have hne_tmp : (freshMeta appBM now c).backup_path ≠ tmpPath appBM :=
    fun hh => hdt (congrArg FPath.dir hh)
  refine ⟨rfl, freshMeta appBM now c, ?_, rfl, ?_⟩
  · rw [listPure_insertFile_outside hqc (.json j),
      listPure_removeFile_outside hqt,
      listPure_insertFile_outside hqt (.json j), hlist, appBM_max_backups]
    exact List.mem_cons_self _ _
  · rw [lookupFile_insertFile_ne _ hne_cfg,
      lookupFile_removeFile_ne _ hne_tmp,
      lookupFile_insertFile_ne _ hne_tmp]
    exact hpay

theorem claim_C2_witness :
    (appBM.safe_save noFaults 1
      ⟨[(appConfigPath, .json (.str "a"))], []⟩ (.ok (.str "b"))).2 =
      .ok () ∧
    ∃ mm, mm ∈ listPure appBM ((appBM.safe_save noFaults 1
        ⟨[(appConfigPath, .json (.str "a"))], []⟩ (.ok (.str "b"))).1) ∧
      mm.timestamp = 1 ∧
      ((appBM.safe_save noFaults 1
        ⟨[(appConfigPath, .json (.str "a"))], []⟩
        (.ok (.str "b"))).1).lookupFile mm.backup_path =
        some (.json (.str "a")) :=
  claim_C2 1 ⟨[(appConfigPath, .json (.str "a"))], []⟩ (.str "b")
    (.json (.str "a")) rfl rfl rfl (by decide)

/-- C8: saving any valid document and loading it back yields exactly that
document (same version, apps entries, mcp slots and droid-manager section),
ignoring the backup-file side effects in the surrounding state. -/
theorem claim_C8 (d : MultiAppConfig) (now now' : Nat) (s : FsState)
    (hv : validDoc d = true) :
    (d.save noFaults now s).2 = .ok () ∧
    (MultiAppConfig.load noFaults now' ((d.save noFaults now s).1)).2 =
      .ok d := by
  unfold MultiAppConfig.save
  cases hc : s.lookupFile appConfigPath with
  | some c =>
    have hc' : s.lookupFile appBM.config_path = some c := hc
    rw [safe_save_noFaults_old appBM now hc' d.toJson]
    dsimp only
    refine ⟨rfl, ?_⟩
    have hcT := lookupFile_insertFile_self
      ((((appBM.cleanup_old_backups noFaults
          (midState appBM now s c)).1).insertFile
        (tmpPath appBM) (.json d.toJson)).removeFile (tmpPath appBM))
      appBM.config_path (.json d.toJson)
    rw [load_verified hcT rfl, loadBody_v2 hcT rfl (v1Parse_toJson_none d hv)]
    rw [multiAppConfig_fromJson_toJson d hv]
  | none =>
    have hc2 : s.lookupFile appBM.config_path = none := hc
    have hex : s.existsFile appBM.config_path = false := by
      unfold FsState.existsFile
      rw [hc2]
      rfl
    rw [safe_save_noFaults_new appBM now hex d.toJson]
    dsimp only
    refine ⟨rfl, ?_⟩
    have hcT := lookupFile_insertFile_self
      ((s.insertFile (tmpPath appBM) (.json d.toJson)).removeFile
        (tmpPath appBM))
      appBM.config_path (.json d.toJson)
    rw [load_verified hcT rfl, loadBody_v2 hcT rfl (v1Parse_toJson_none d hv)]
    rw [multiAppConfig_fromJson_toJson d hv]

theorem claim_C8_witness :
    (MultiAppConfig.default.save noFaults 1 ⟨[], []⟩).2 = .ok () ∧
    (MultiAppConfig.load noFaults 2
      ((MultiAppConfig.default.save noFaults 1 ⟨[], []⟩).1)).2 =
      .ok MultiAppConfig.default :=
  claim_C8 MultiAppConfig.default 1 2 ⟨[], []⟩ (by decide)

/-- C7: a fault-free `create_backup` (which ends with the cleanup pass)
leaves as listed backups exactly the `max_backups = 10` newest entries by
timestamp — the take-prefix of the descending-sorted listing headed by the
fresh entry — so at most 10 remain, and exactly 10 remain as soon as at
least 10 backups existed before (in particular after 15 consecutive saves). -/
theorem claim_C7 (now : Nat) (s : FsState) (c : FileData)
    (hc : s.lookupFile appConfigPath = some c)
    (hwf : sidecarsCanonical appBM s = true)
    (hnd : pathsNodup s = true)
    (hfresh : ∀ mm ∈ collectMetas appBM s.files, mm.timestamp < now) :
    (appBM.create_backup noFaults now s).2 = .ok (freshMeta appBM now c) ∧
    listPure appBM ((appBM.create_backup noFaults now s).1) =
      (freshMeta appBM now c ::
        sortDescTs (collectMetas appBM s.files)).take appBM.max_backups ∧
    (listPure appBM ((appBM.create_backup noFaults now s).1)).length =
      min appBM.max_backups (1 + (collectMetas appBM s.files).length) ∧
    (listPure appBM ((appBM.create_backup noFaults now s).1)).length ≤
      appBM.max_backups := by
  have hc' : s.lookupFile appBM.config_path = some c := hc
  have hl := create_backup_listing appBM now (by decide) hc'
    (canonical_of_bool hwf) (of_decide_eq_true hnd) hfresh
  rcases hl with ⟨heq, hlist, hpay, hdir⟩
  have hlen : (listPure appBM ((appBM.cleanup_old_backups noFaults
      (midState appBM now s c)).1)).length =
      min appBM.max_backups (1 + (collectMetas appBM s.files).length) := by
    rw [hlist, List.length_take, List.length_cons,
      (perm_sortDescTs (collectMetas appBM s.files)).length_eq]
    omega
  have hle : (listPure appBM ((appBM.cleanup_old_backups noFaults
      (midState appBM now s c)).1)).length ≤ appBM.max_backups := by
    rw [hlist, List.length_take]
    exact Nat.min_le_left _ _
  refine ⟨by rw [heq], ?_, ?_, ?_⟩
  · rw [heq]
    exact hlist
  · rw [heq]
    exact hlen
  · rw [heq]
    exact hle

theorem claim_C7_witness :
    (appBM.create_backup noFaults 1
      ⟨[(appConfigPath, .json (.str "a"))], []⟩).2 =
      .ok (freshMeta appBM 1 (.json (.str "a"))) ∧
    listPure appBM ((appBM.create_backup noFaults 1
        ⟨[(appConfigPath, .json (.str "a"))], []⟩).1) =
      (freshMeta appBM 1 (.json (.str "a")) ::
        sortDescTs (collectMetas appBM
          [(appConfigPath, .json (.str "a"))])).take appBM.max_backups ∧
    (listPure appBM ((appBM.create_backup noFaults 1
        ⟨[(appConfigPath, .json (.str "a"))], []⟩).1)).length =
      min appBM.max_backups
        (1 + (collectMetas appBM [(appConfigPath, .json (.str "a"))]).length) ∧
    (listPure appBM ((appBM.create_backup noFaults 1
        ⟨[(appConfigPath, .json (.str "a"))], []⟩).1)).length ≤
      appBM.max_backups :=
  claim_C7 1 ⟨[(appConfigPath, .json (.str "a"))], []⟩ (.json (.str "a"))
    rfl rfl rfl (by decide)

theorem fsRead_v1cf (t : Nat) : fsRead (v1CopyFaults t) = fsRead noFaults :=
  rfl

theorem fsWrite_v1cf (t : Nat) : fsWrite (v1CopyFaults t) = fsWrite noFaults :=
  rfl

theorem fsRename_v1cf (t : Nat) :
    fsRename (v1CopyFaults t) = fsRename noFaults := rfl

theorem fsMetadataLen_v1cf (t : Nat) :
    fsMetadataLen (v1CopyFaults t) = fsMetadataLen noFaults := rfl

theorem ensure_backup_dir_v1cf (t : Nat) :
    appBM.ensure_backup_dir (v1CopyFaults t) =
      appBM.ensure_backup_dir noFaults := rfl

theorem calculate_checksum_v1cf (t : Nat) :
    appBM.calculate_checksum (v1CopyFaults t) =
      appBM.calculate_checksum noFaults := rfl

theorem list_backups_v1cf (t : Nat) :
    appBM.list_backups (v1CopyFaults t) = appBM.list_backups noFaults := rfl

theorem removePair_v1cf (t : Nat) :
    appBM.removePair (v1CopyFaults t) = appBM.removePair noFaults := rfl

theorem cleanupLoop_v1cf (t : Nat) (L : List BackupMetadata) (s : FsState) :
    appBM.cleanupLoop (v1CopyFaults t) L s = appBM.cleanupLoop noFaults L s := by
  induction L generalizing s with
  | nil => rfl
  | cons b rest ih =>
    simp only [ConfigBackupManager.cleanupLoop]
    rw [removePair_v1cf]
    cases hrp : appBM.removePair noFaults s b.backup_path with
    | mk s1 r1 =>
      cases r1 with
      | error e => rfl
      | ok u => exact ih s1

theorem cleanup_v1cf (t : Nat) (s : FsState) :
    appBM.cleanup_old_backups (v1CopyFaults t) s =
      appBM.cleanup_old_backups noFaults s := by
  unfold ConfigBackupManager.cleanup_old_backups
  rw [list_backups_v1cf]
  cases appBM.list_backups noFaults s with
  | error e => rfl
  | ok backups =>
    simp only []
    split
    · rfl
    · exact cleanupLoop_v1cf t _ s

theorem create_backup_v1cf (t now : Nat) (s : FsState) :
    appBM.create_backup (v1CopyFaults t) now s =
      appBM.create_backup noFaults now s := by
  unfold ConfigBackupManager.create_backup
  rw [ensure_backup_dir_v1cf]
  have hcopy : ∀ u : FsState,
      fsCopy (v1CopyFaults t) u appBM.config_path
        ⟨appBM.backup_dir, backupNameChars now⟩ =
      fsCopy noFaults u appBM.config_path
        ⟨appBM.backup_dir, backupNameChars now⟩ := by
    intro u
    unfold fsCopy
    have hcf : (v1CopyFaults t).copyFail appBM.config_path
        ⟨appBM.backup_dir, backupNameChars now⟩ = false := by
      show decide ((⟨appBM.backup_dir, backupNameChars now⟩ : FPath) =
        ⟨appConfigDir, v1BackupNameChars t⟩) = false
      exact decide_eq_false (fun hh =>
        (show appBM.backup_dir ≠ appConfigDir by decide)
          (congrArg FPath.dir hh))
    rw [hcf]
    rfl
  simp only [hcopy, fsMetadataLen_v1cf, calculate_checksum_v1cf,
    fsWrite_v1cf, cleanup_v1cf]

theorem backupStep_v1cf (t now : Nat) (s : FsState) :
    appBM.backupStep (v1CopyFaults t) now s =
      appBM.backupStep noFaults now s := by
  unfold ConfigBackupManager.backupStep
  simp only [create_backup_v1cf]

theorem safe_save_v1cf (t now : Nat) (s : FsState)
    (ser : Except String Json) :
    appBM.safe_save (v1CopyFaults t) now s ser =
      appBM.safe_save noFaults now s ser := by
  unfold ConfigBackupManager.safe_save
  simp only [backupStep_v1cf, fsWrite_v1cf, fsRead_v1cf, fsRename_v1cf]

theorem loadBody_v1_copyFault {now : Nat} {s : FsState} {v : Json}
    {pm : ProviderManager}
    (hc : s.lookupFile appConfigPath = some (.json v))
    (hv1 : ProviderManager.fromJson? v = some pm) :
    (MultiAppConfig.loadBody (v1CopyFaults now) now s).2 =
      .ok (migratedDoc pm) := by
  unfold MultiAppConfig.loadBody
  rw [fsRead_v1cf, fsRead_noFaults_some hc]
  simp only []
  unfold v1Parse
  simp only []
  rw [hv1]
  simp only []
  have hcf : fsCopy (v1CopyFaults now) s appConfigPath
      ⟨appConfigDir, v1BackupNameChars now⟩ = (s, .error "复制文件失败") := by
    unfold fsCopy
    rw [show (v1CopyFaults now).copyFail appConfigPath
        ⟨appConfigDir, v1BackupNameChars now⟩ = true from
      decide_eq_true rfl]
    rfl
  rw [hcf]
  simp only []
  unfold MultiAppConfig.save
  rw [safe_save_v1cf]
  rw [safe_save_noFaults_old appBM now
    (show s.lookupFile appBM.config_path = some (.json v) from hc)
    (migratedDoc pm).toJson]

/-- C5: migrating a v1 registry once yields the v2 document with
version 2, `apps["claude"]` equal to the original registry,
`apps["codex"]` a default registry and default mcp/droid sections;
reloading the persisted result performs no further migration (the state is
left untouched and the same document is returned); and failure of the
best-effort `.v1.backup` sidecar copy does not abort the migration. -/
theorem claim_C5 (now now' : Nat) (s : FsState) (v : Json)
    (pm : ProviderManager)
    (hc : s.lookupFile appConfigPath = some (.json v))
    (hpm : ProviderManager.fromJson? v = some pm) :
    ((MultiAppConfig.load noFaults now s).2 = .ok (migratedDoc pm) ∧
     (migratedDoc pm).version = 2 ∧
     (migratedDoc pm).apps =
       [("claude", pm), ("codex", ProviderManager.default)] ∧
     (migratedDoc pm).mcp = McpRoot.default ∧
     (migratedDoc pm).droid_manager = none) ∧
    MultiAppConfig.load noFaults now'
        ((MultiAppConfig.load noFaults now s).1) =
      ((MultiAppConfig.load noFaults now s).1, .ok (migratedDoc pm)) ∧
    (MultiAppConfig.load (v1CopyFaults now) now s).2 =
      .ok (migratedDoc pm) := by
  have hvd : validDoc (migratedDoc pm) = true := rfl
  refine ⟨⟨?_, rfl, rfl, rfl, rfl⟩, ?_, ?_⟩
  · rw [load_verified hc rfl, loadBody_v1_noFaults hc hpm]
  · rw [load_verified hc rfl, loadBody_v1_noFaults hc hpm]
    simp only []
    have hT := lookupFile_insertFile_self
      ((((appBM.cleanup_old_backups noFaults
          (midState appBM now
            (s.insertFile ⟨appConfigDir, v1BackupNameChars now⟩ (.json v))
            (.json v))).1).insertFile
        (tmpPath appBM) (.json (migratedDoc pm).toJson)).removeFile
        (tmpPath appBM))
      appConfigPath (.json (migratedDoc pm).toJson)
    rw [load_verified hT rfl,
      loadBody_v2 hT rfl (v1Parse_toJson_none (migratedDoc pm) hvd)]
    rw [multiAppConfig_fromJson_toJson (migratedDoc pm) hvd]
  · rw [load_verified hc rfl]
    exact loadBody_v1_copyFault hc hpm

theorem claim_C5_witness :
    (MultiAppConfig.load (v1CopyFaults 1) 1
      ⟨[(appConfigPath, .json (.obj [("providers", .obj [])]))], []⟩).2 =
      .ok (migratedDoc ⟨[]⟩) :=
  (claim_C5 1 2 ⟨[(appConfigPath, .json (.obj [("providers", .obj [])]))], []⟩
    (.obj [("providers", .obj [])]) ⟨[]⟩ rfl rfl).2.2
